import Mathlib

/-! # Gas station simulation (`main.go`)

A shallow embedding of the Go program: its configuration, the duration
sampling expression, the station chooser, start-up in `main`, the two worker
loops, the arrival generator and the statistics readout.

Conventions.

* `int`, `int64` and `time.Duration` are 64-bit two's-complement integers.
  They are modelled by `Int`, every arithmetic result being passed through
  `wrap64`.
* The pseudo-random generator of `math/rand` is outside the repository.  Each
  call takes the value the generator hands back as an explicit argument `r`;
  `Int63n n` and `Intn n` panic for `n ≤ 0` (as documented by the library) and
  otherwise return a value in `[0, n)`, here `r % n`.  The clock is treated
  the same way: the reading `time.Since(start)` is an argument `elapsed`.
* A Go panic is `none` for the pure functions.  In the running system a
  goroutine that panics runs its deferred calls (the `defer wg.Done()` of the
  two worker loops) and is gone, and the flag `panicked` records that the
  process is going down.  The other goroutines keep running until the process
  exits, so `main` can still pass `wg.Wait()` and print the statistics.
* The worker loops are given twice.  `Station.record` and `Register.record`
  are the loop body as one function of the sampled duration and the measured
  time; `Station.carRefuelingStep` and `Register.paymentStep` are the same
  body split at every access to a field of the shared struct.  The fields are
  plain (non-atomic) and no lock is held, so between a read and the write that
  follows it another goroutine working on the same struct may run;
  `Station.steps_serving` and `Register.steps_paying` show that without
  interference the steps compose to `record`.
* The running program is a state `Sys` and a function `step` that moves one
  goroutine, chosen by an `Action`; a schedule is a list of actions.
-/

namespace GasStation

/-! ## Machine integers -/

/-- Two's-complement reduction of an integer to 64 bits. -/
def wrap64 (x : Int) : Int :=
  (x + 9223372036854775808) % 18446744073709551616 - 9223372036854775808

/-- Values representable as `int64`. -/
def inInt64 (x : Int) : Prop :=
  -9223372036854775808 ≤ x ∧ x < 9223372036854775808

instance (x : Int) : Decidable (inInt64 x) := by
  unfold inInt64; infer_instance

/-- Go integer division `a / b`: panics on a zero divisor, truncates towards
zero. -/
def goDiv (a b : Int) : Option Int :=
  if b = 0 then none else some (wrap64 (Int.tdiv a b))

/-! ## `math/rand` -/

/-- `rand.Int63n(n)`: panics if `n <= 0`, else a value in `[0, n)`. -/
def Int63n (n : Int) (r : Nat) : Option Int :=
  if n ≤ 0 then none else some ((r : Int) % n)

/-- `rand.Intn(n)`: panics if `n <= 0`, else a value in `[0, n)`. -/
def Intn (n : Int) (r : Nat) : Option Int :=
  if n ≤ 0 then none else some ((r : Int) % n)

/-- The expression
`min + time.Duration(rand.Int63n(int64(max - min)))`
used in `carRefueling`, `payment` and the arrival generator. -/
def sampleDuration (min max : Int) (r : Nat) : Option Int :=
  match Int63n (wrap64 (max - min)) r with
  | none => none
  | some k => some (wrap64 (min + k))

/-! ## Configuration -/

/-- `CarConfig`. -/
structure CarConfig where
  Count : Int
  ArrivalTimeMin : Int
  ArrivalTimeMax : Int
  deriving DecidableEq, Repr

/-- The value type of `StationsConfig`. -/
structure StationConfig where
  Count : Int
  ServeTimeMin : Int
  ServeTimeMax : Int
  deriving DecidableEq, Repr

/-- `RegisterConfig`. -/
structure RegisterConfig where
  Count : Int
  HandleTimeMin : Int
  HandleTimeMax : Int
  deriving DecidableEq, Repr

/-- `Config`.  The map `StationsConfig` is the list of its entries. -/
structure Config where
  Cars : CarConfig
  Stations : List (String × StationConfig)
  Registers : RegisterConfig
  deriving DecidableEq, Repr

/-- The station-type names of a configuration (keys of `config.Stations`). -/
def Config.stationNames (c : Config) : List String :=
  c.Stations.map Prod.fst

/-! ## `chooseRandomStation` -/

/-- The local slice `stations` of `chooseRandomStation`. -/
def stationOptions : List String := ["gas", "diesel", "lpg", "electric"]

/-- `chooseRandomStation`: `stations[rand.Intn(len(stations))]`. -/
def chooseRandomStation (r : Nat) : Option String :=
  match Intn stationOptions.length r with
  | none => none
  | some k => stationOptions[k.toNat]?

/-! ## Channels -/

/-- A value of type `chan struct{}`.  Tokens carry no data, so the buffer is
represented by the number of tokens it holds. -/
structure Chan where
  cap : Nat
  len : Nat
  closed : Bool
  deriving DecidableEq, Repr

/-- Result of a channel operation of the generator: it cannot proceed yet, it
panics, or it succeeds. -/
inductive Outcome (α : Type) where
  | blocked : Outcome α
  | crash : Outcome α
  | next : α → Outcome α
  deriving DecidableEq, Repr

/-- Result of the iteration test of `for range ch`. -/
inductive Recv where
  /-- the channel is open and empty: the loop waits -/
  | wait : Recv
  /-- the channel is closed and empty: the loop ends -/
  | over : Recv
  /-- a token was taken; the channel afterwards -/
  | token (ch : Chan) : Recv
  deriving DecidableEq, Repr

/-- `make(chan struct{}, size)`: panics on a negative size. -/
def makeChan (size : Int) : Option Chan :=
  if size < 0 then none else some ⟨size.toNat, 0, false⟩

/-- `ch <- struct{}{}` on a buffered channel: panics when closed, blocks
while the buffer is full. -/
def Chan.send (ch : Chan) : Outcome Chan :=
  if ch.closed then .crash
  else if ch.len < ch.cap then .next { ch with len := ch.len + 1 }
  else .blocked

/-- One iteration test of `for range ch`. -/
def Chan.recv (ch : Chan) : Recv :=
  if 0 < ch.len then .token { ch with len := ch.len - 1 }
  else if ch.closed then .over
  else .wait

/-- `close(ch)`: panics when already closed. -/
def Chan.close (ch : Chan) : Outcome Chan :=
  if ch.closed then .crash else .next { ch with closed := true }

/-! ## Stages -/

/-- `Station`. -/
structure Station where
  name : String
  count : Int
  totalCars : Int
  queue : Chan
  serveTimeMin : Int
  serveTimeMax : Int
  totalTime : Int
  avgQueueTime : Int
  maxQueueTime : Int
  deriving DecidableEq, Repr

/-- `Register`. -/
structure Register where
  count : Int
  totalCars : Int
  queue : Chan
  handleTimeMin : Int
  handleTimeMax : Int
  totalTime : Int
  avgQueueTime : Int
  maxQueueTime : Int
  deriving DecidableEq, Repr

/-! ### The loop body, one token at a time -/

/-- Statistics update of `carRefueling` for one token (the loop body after the
sleep), given the sampled `serveTime` and the measured `elapsed`. -/
def Station.record (station : Station) (serveTime elapsed : Int) : Station :=
  let station := { station with totalTime := wrap64 (station.totalTime + serveTime) }
  let station :=
    if elapsed > station.maxQueueTime then { station with maxQueueTime := elapsed }
    else station
  { station with totalCars := wrap64 (station.totalCars + 1) }

/-- Statistics update of `payment` for one token, given the sampled
`handleTime` and the measured `elapsed`. -/
def Register.record (register : Register) (handleTime elapsed : Int) : Register :=
  let register := { register with totalTime := wrap64 (register.totalTime + handleTime) }
  let register :=
    if elapsed > register.maxQueueTime then { register with maxQueueTime := elapsed }
    else register
  { register with totalCars := wrap64 (register.totalCars + 1) }

/-- The loop of `carRefueling` run by one worker over a sequence of tokens,
each with its sampled duration and measured elapsed time. -/
def Station.carRefueling (station : Station) (samples : List (Int × Int)) : Station :=
  samples.foldl (fun st p => st.record p.1 p.2) station

/-- The loop of `payment` run by one worker over a sequence of tokens. -/
def Register.payment (register : Register) (samples : List (Int × Int)) : Register :=
  samples.foldl (fun rg p => rg.record p.1 p.2) register

/-- The average printed for a station:
`if station.totalCars > 0 { avg = station.totalTime / time.Duration(station.totalCars) }`. -/
def Station.reportAvg (station : Station) : Option Int :=
  if station.totalCars > 0 then goDiv station.totalTime station.totalCars else some 0

/-- The average printed for the register. -/
def Register.reportAvg (register : Register) : Option Int :=
  if register.totalCars > 0 then goDiv register.totalTime register.totalCars else some 0

/-! ### The loop body, one memory access at a time -/

/-- Control point of a worker goroutine inside `for range queue`, together
with the values it holds in local variables. -/
inductive WorkerPc where
  /-- waiting at `for range queue` -/
  | idle : WorkerPc
  /-- token taken, duration sampled and slept; about to read `totalTime` -/
  | serving (d : Int) : WorkerPc
  /-- `totalTime` read as `t`; about to write `t + d` -/
  | addTime (d t : Int) : WorkerPc
  /-- about to take `elapsed` and compare it with `maxQueueTime` -/
  | measure : WorkerPc
  /-- comparison succeeded; about to write `maxQueueTime = e` -/
  | setMax (e : Int) : WorkerPc
  /-- about to read `totalCars` -/
  | incr : WorkerPc
  /-- `totalCars` read as `c`; about to write `c + 1` -/
  | storeCars (c : Int) : WorkerPc
  /-- loop left, the deferred `wg.Done()` executed -/
  | exited : WorkerPc
  /-- panicked while sampling, the deferred `wg.Done()` executed -/
  | crashed : WorkerPc
  deriving DecidableEq, Repr

/-- The goroutine is gone and its deferred `wg.Done()` has run. -/
def WorkerPc.finished (pc : WorkerPc) : Bool :=
  decide (pc = WorkerPc.exited) || decide (pc = WorkerPc.crashed)

/-- One step of a goroutine running `station.carRefueling`; `none` when it
cannot move.  `r` is the random draw and `elapsed` the clock reading, used at
the steps that need them.  A panic of the sampling leaves the goroutine at
`crashed`, the token it took being lost. -/
def Station.carRefuelingStep (station : Station) (pc : WorkerPc) (r : Nat) (elapsed : Int) :
    Option (Station × WorkerPc) :=
  match pc with
  | .idle =>
    match station.queue.recv with
    | .wait => none
    | .over => some (station, .exited)
    | .token q =>
      match sampleDuration station.serveTimeMin station.serveTimeMax r with
      | none => some ({ station with queue := q }, .crashed)
      | some serveTime => some ({ station with queue := q }, .serving serveTime)
  | .serving d => some (station, .addTime d station.totalTime)
  | .addTime d t => some ({ station with totalTime := wrap64 (t + d) }, .measure)
  | .measure =>
    if elapsed > station.maxQueueTime then some (station, .setMax elapsed)
    else some (station, .incr)
  | .setMax e => some ({ station with maxQueueTime := e }, .incr)
  | .incr => some (station, .storeCars station.totalCars)
  | .storeCars c => some ({ station with totalCars := wrap64 (c + 1) }, .idle)
  | .exited => none
  | .crashed => none

/-- One step of a goroutine running `register.payment`; `none` when it cannot
move. -/
def Register.paymentStep (register : Register) (pc : WorkerPc) (r : Nat) (elapsed : Int) :
    Option (Register × WorkerPc) :=
  match pc with
  | .idle =>
    match register.queue.recv with
    | .wait => none
    | .over => some (register, .exited)
    | .token q =>
      match sampleDuration register.handleTimeMin register.handleTimeMax r with
      | none => some ({ register with queue := q }, .crashed)
      | some handleTime => some ({ register with queue := q }, .serving handleTime)
  | .serving d => some (register, .addTime d register.totalTime)
  | .addTime d t => some ({ register with totalTime := wrap64 (t + d) }, .measure)
  | .measure =>
    if elapsed > register.maxQueueTime then some (register, .setMax elapsed)
    else some (register, .incr)
  | .setMax e => some ({ register with maxQueueTime := e }, .incr)
  | .incr => some (register, .storeCars register.totalCars)
  | .storeCars c => some ({ register with totalCars := wrap64 (c + 1) }, .idle)
  | .exited => none
  | .crashed => none

/-! ## The running program -/

/-- Control point of the arrival generator goroutine. -/
inductive GenPc where
  /-- at the head of the loop, `i` arrivals submitted so far -/
  | loop (i : Nat) : GenPc
  /-- arrival `i` sent to its station, `registers.queue <- struct{}{}` pending -/
  | sendReg (i : Nat) : GenPc
  /-- loop left and `registers.queue` closed; closing the station queues -/
  | closing : GenPc
  /-- panicked (the generator has no deferred call) -/
  | crashed : GenPc
  deriving DecidableEq, Repr

/-- State of the program after start-up: the map `stations` (each entry with
the one goroutine `main` starts for it), `registers` with its goroutines, the
wait group counter, the arrival generator, and whether some goroutine has
panicked. -/
structure Sys where
  config : Config
  stations : List (Station × WorkerPc)
  registers : Register
  payers : List WorkerPc
  wg : Nat
  gen : GenPc
  panicked : Bool
  deriving DecidableEq, Repr

/-- The struct literal `&Station{...}` of `main`; the unnamed fields are zero. -/
def newStation (name : String) (stationConfig : StationConfig) (q : Chan) : Station :=
  { name := name, count := stationConfig.Count, totalCars := 0, queue := q,
    serveTimeMin := stationConfig.ServeTimeMin, serveTimeMax := stationConfig.ServeTimeMax,
    totalTime := 0, avgQueueTime := 0, maxQueueTime := 0 }

/-- The struct literal `&Register{...}` of `main`; the unnamed fields are zero. -/
def newRegister (registerConfig : RegisterConfig) (q : Chan) : Register :=
  { count := registerConfig.Count, totalCars := 0, queue := q,
    handleTimeMin := registerConfig.HandleTimeMin, handleTimeMax := registerConfig.HandleTimeMax,
    totalTime := 0, avgQueueTime := 0, maxQueueTime := 0 }

/-- The loop `for name, stationConfig := range config.Stations` of `main`. -/
def initStations (carCount : Int) : List (String × StationConfig) → Option (List Station)
  | [] => some []
  | (name, stationConfig) :: rest =>
    match makeChan carCount with
    | none => none
    | some q =>
      match initStations carCount rest with
      | none => none
      | some l => some (newStation name stationConfig q :: l)

/-- Start-up in `main`, from the parsed configuration up to the `go`
statements: `none` when initialisation panics.  One `carRefueling` goroutine
is started per entry of `stations`, and `registers.count` goroutines run
`payment`; each start is preceded by `wg.Add(1)`. -/
def start (config : Config) : Option Sys :=
  match makeChan config.Cars.Count with
  | none => none
  | some q =>
    let registers := newRegister config.Registers q
    match initStations config.Cars.Count config.Stations with
    | none => none
    | some stations =>
      some { config := config
             stations := stations.map (fun st => (st, WorkerPc.idle))
             registers := registers
             payers := List.replicate registers.count.toNat WorkerPc.idle
             wg := stations.length + registers.count.toNat
             gen := GenPc.loop 0
             panicked := false }

/-- The map lookup `stations[name]`. -/
def lookupStation (name : String) (l : List (Station × WorkerPc)) : Option (Station × WorkerPc) :=
  l.find? (fun x => x.1.name == name)

/-- Write-back through the pointer `stations[name]`. -/
def setStation (name : String) (x : Station × WorkerPc) :
    List (Station × WorkerPc) → List (Station × WorkerPc)
  | [] => []
  | y :: l => if y.1.name == name then x :: l else y :: setStation name x l

/-- The generator goroutine panics. -/
def genCrash (s : Sys) : Sys :=
  { s with panicked := true, gen := GenPc.crashed }

/-- Generator, loop body up to the send on the station queue: sample and sleep
the arrival delay, choose a station, send a token to it. -/
def genArrive (s : Sys) (rDelay rStation : Nat) : Option Sys :=
  match s.gen with
  | .loop i =>
    if (i : Int) < s.config.Cars.Count then
      match sampleDuration s.config.Cars.ArrivalTimeMin s.config.Cars.ArrivalTimeMax rDelay with
      | none => some (genCrash s)
      | some _ =>
        match chooseRandomStation rStation with
        | none => some (genCrash s)
        | some name =>
          match lookupStation name s.stations with
          | none => some (genCrash s)
          | some (station, pc) =>
            match station.queue.send with
            | .blocked => none
            | .crash => some (genCrash s)
            | .next q =>
              some { s with stations := setStation name ({ station with queue := q }, pc) s.stations
                            gen := .sendReg i }
    else none
  | _ => none

/-- Generator: `registers.queue <- struct{}{}` and the loop increment. -/
def genSendRegister (s : Sys) : Option Sys :=
  match s.gen with
  | .sendReg i =>
    match s.registers.queue.send with
    | .blocked => none
    | .crash => some (genCrash s)
    | .next q => some { s with registers := { s.registers with queue := q }, gen := .loop (i + 1) }
  | _ => none

/-- Generator: loop exit and `close(registers.queue)`. -/
def genCloseRegister (s : Sys) : Option Sys :=
  match s.gen with
  | .loop i =>
    if (i : Int) < s.config.Cars.Count then none
    else
      match s.registers.queue.close with
      | .blocked => none
      | .crash => some (genCrash s)
      | .next q => some { s with registers := { s.registers with queue := q }, gen := .closing }
  | _ => none

/-- Generator: `close(station.queue)` for one entry of the closing loop, which
visits every entry once, in an unspecified order. -/
def genCloseStation (s : Sys) (name : String) : Option Sys :=
  match s.gen with
  | .closing =>
    match lookupStation name s.stations with
    | none => none
    | some (station, pc) =>
      if station.queue.closed then none
      else
        match station.queue.close with
        | .blocked => none
        | .crash => some (genCrash s)
        | .next q =>
          some { s with stations := setStation name ({ station with queue := q }, pc) s.stations }
  | _ => none

/-- One step of the goroutine serving station `name`.  When the goroutine
leaves, normally or by a panic, its deferred `wg.Done()` runs. -/
def stationWork (s : Sys) (name : String) (r : Nat) (elapsed : Int) : Option Sys :=
  match lookupStation name s.stations with
  | none => none
  | some (station, pc) =>
    match station.carRefuelingStep pc r elapsed with
    | none => none
    | some (station1, pc1) =>
      some { s with stations := setStation name (station1, pc1) s.stations
                    wg := if pc1.finished then s.wg - 1 else s.wg
                    panicked := s.panicked || decide (pc1 = WorkerPc.crashed) }

/-- One step of the `k`-th goroutine serving the register.  When the goroutine
leaves, normally or by a panic, its deferred `wg.Done()` runs. -/
def registerWork (s : Sys) (k : Nat) (r : Nat) (elapsed : Int) : Option Sys :=
  match s.payers[k]? with
  | none => none
  | some pc =>
    match s.registers.paymentStep pc r elapsed with
    | none => none
    | some (register1, pc1) =>
      some { s with registers := register1
                    payers := s.payers.set k pc1
                    wg := if pc1.finished then s.wg - 1 else s.wg
                    panicked := s.panicked || decide (pc1 = WorkerPc.crashed) }

/-- Scheduler choices: which goroutine moves, with the random draws and clock
readings it obtains. -/
inductive Action where
  | arrive (rDelay rStation : Nat) : Action
  | sendRegister : Action
  | closeRegister : Action
  | closeStation (name : String) : Action
  | refuel (name : String) (r : Nat) (elapsed : Int) : Action
  | pay (k : Nat) (r : Nat) (elapsed : Int) : Action
  deriving DecidableEq, Repr

/-- One step of the program; `none` when the chosen goroutine cannot move.
After a panic the remaining goroutines can still move: the process exits at
some later moment, which the model leaves open. -/
def step (s : Sys) (a : Action) : Option Sys :=
  match a with
  | .arrive rDelay rStation => genArrive s rDelay rStation
  | .sendRegister => genSendRegister s
  | .closeRegister => genCloseRegister s
  | .closeStation name => genCloseStation s name
  | .refuel name r elapsed => stationWork s name r elapsed
  | .pay k r elapsed => registerWork s k r elapsed

/-- Execution of a schedule. -/
def run (s : Sys) : List Action → Option Sys
  | [] => some s
  | a :: as =>
    match step s a with
    | none => none
    | some s1 => run s1 as

/-- The wait group counter is zero: `wg.Wait()` returns and `main` reads and
prints the statistics.  This also happens after panics of workers, whose
deferred `wg.Done()` has run. -/
def readout (s : Sys) : Prop := s.wg = 0

instance (s : Sys) : Decidable (readout s) := by
  unfold readout; infer_instance

/-- A run that went through without a panic: the generator has submitted
everything and closed every queue, and every worker has drained its queue and
left its loop. -/
def completed (s : Sys) : Prop :=
  s.panicked = false ∧ s.gen = GenPc.closing ∧ s.registers.queue.closed = true ∧
  (∀ x ∈ s.stations, x.1.queue.closed = true ∧ x.2 = WorkerPc.exited) ∧
  (∀ pc ∈ s.payers, pc = WorkerPc.exited)

instance (s : Sys) : Decidable (completed s) := by
  unfold completed; infer_instance

/-- Sum of `totalCars` over all station stages. -/
def stationTotal (s : Sys) : Int :=
  (s.stations.map (fun x => x.1.totalCars)).sum

/-- The `totalCars` of station `name`, as read through `stations[name]`. -/
def stationCars (s : Sys) (name : String) : Option Int :=
  (lookupStation name s.stations).map (fun x => x.1.totalCars)

/-- The station names chosen by the routing draws of a schedule, in order. -/
def routing : List Action → List String
  | [] => []
  | .arrive _ rStation :: as => (chooseRandomStation rStation).toList ++ routing as
  | _ :: as => routing as

/-! ## Invariants -/

/-- Whether a worker holds a token it has not counted: 1 if so.  A worker that
panicked keeps the token it took. -/
def inflight : WorkerPc → Int
  | .idle => 0
  | .exited => 0
  | _ => 1

/-- Tokens a station has received: counted, queued or in service. -/
def received (x : Station × WorkerPc) : Int :=
  x.1.totalCars + x.1.queue.len + inflight x.2

/-- Tokens the generator has sent to station queues so far (the arrival
count once it has panicked, where the number is not needed). -/
def submitted (c : Config) : GenPc → Int
  | .loop i => i
  | .sendReg i => i + 1
  | .closing => c.Cars.Count
  | .crashed => c.Cars.Count

/-- Per-station part of the invariant. -/
def StationOk (g : GenPc) (x : Station × WorkerPc) : Prop :=
  0 ≤ x.1.totalCars ∧
  (∀ c, x.2 = WorkerPc.storeCars c → c = x.1.totalCars) ∧
  (x.2 = WorkerPc.exited → x.1.queue.len = 0 ∧ x.1.queue.closed = true) ∧
  (x.1.queue.closed = true → g = GenPc.closing)

/-- Invariant of every reachable state: each token sent to a station queue is
accounted for exactly once. -/
structure Inv (c : Config) (s : Sys) : Prop where
  cfg : s.config = c
  total : s.gen ≠ GenPc.crashed → (s.stations.map received).sum = submitted c s.gen
  sumle : (s.stations.map received).sum ≤ c.Cars.Count
  bound : submitted c s.gen ≤ c.Cars.Count
  ok : ∀ x ∈ s.stations, StationOk s.gen x

/-- The serve-time range of a station has a positive width, so that sampling
from it does not panic. -/
def Station.validRange (station : Station) : Prop :=
  0 < wrap64 (station.serveTimeMax - station.serveTimeMin)

/-- The handle-time range of the register has a positive width. -/
def Register.validRange (register : Register) : Prop :=
  0 < wrap64 (register.handleTimeMax - register.handleTimeMin)

/-- The fields of a station that never change after start-up. -/
def fixedPart (x : Station × WorkerPc) : String × Int × Int :=
  (x.1.name, x.1.serveTimeMin, x.1.serveTimeMax)

/-- 1 for a goroutine the wait group still waits for, 0 otherwise. -/
def live (pc : WorkerPc) : Int := if pc.finished then 0 else 1

/-- Per-station invariant that follows the routing: `h` lists the station
names chosen so far. -/
def StationD (c : Config) (h : List String) (g : GenPc) (name : String)
    (x : Station × WorkerPc) : Prop :=
  StationOk g x ∧ received x ≤ c.Cars.Count ∧
  (g ≠ GenPc.crashed → received x = h.count name) ∧
  (x.1.validRange → x.2 ≠ WorkerPc.crashed) ∧
  (¬ x.1.validRange → x.1.totalCars = 0 ∧
    (x.2 = WorkerPc.idle ∨ x.2 = WorkerPc.exited ∨ x.2 = WorkerPc.crashed))

/-- What the history of routing choices says about the generator. -/
def genHistory (c : Config) (h : List String) : GenPc → Prop
  | .loop i => h.length = i
  | .sendReg i => h.length = i + 1
  | .closing => (h.length : Int) = c.Cars.Count
  | .crashed => True

/-- Invariant relating a reachable state to the start state `s0` and to the
routing choices `h` made so far. -/
structure InvD (c : Config) (s0 : Sys) (h : List String) (s : Sys) : Prop where
  cfg : s.config = c
  fixed : s.stations.map fixedPart = s0.stations.map fixedPart
  hist : genHistory c h s.gen
  bound : submitted c s.gen ≤ c.Cars.Count
  st : ∀ name x, lookupStation name s.stations = some x → StationD c h s.gen name x
  wgc : (s.wg : Int) = (s.stations.map (fun x => live x.2)).sum + (s.payers.map live).sum

/-- Tokens the register stage has received: counted, queued or in service. -/
def regReceived (s : Sys) : Int :=
  s.registers.totalCars + s.registers.queue.len + (s.payers.map inflight).sum

/-- Tokens the generator has sent to the register queue so far. -/
def regSubmitted (c : Config) : GenPc → Int
  | .loop i => i
  | .sendReg i => i
  | .closing => c.Cars.Count
  | .crashed => c.Cars.Count

/-- Invariant of the register stage when it has at most one worker. -/
structure RegInv (c : Config) (s : Sys) : Prop where
  cfg : s.config = c
  fixed : s.registers.handleTimeMin = c.Registers.HandleTimeMin ∧
    s.registers.handleTimeMax = c.Registers.HandleTimeMax
  few : s.payers.length ≤ 1
  idle : s.payers = [] → s.registers.totalCars = 0
  total : s.gen ≠ GenPc.crashed → regReceived s = regSubmitted c s.gen
  sumle : regReceived s ≤ c.Cars.Count
  bound : submitted c s.gen ≤ c.Cars.Count
  nonneg : 0 ≤ s.registers.totalCars
  store : ∀ v, s.payers = [WorkerPc.storeCars v] → v = s.registers.totalCars
  gone : s.payers = [WorkerPc.exited] →
    s.registers.queue.len = 0 ∧ s.registers.queue.closed = true
  closed : s.registers.queue.closed = true → s.gen = GenPc.closing
  valid : s.registers.validRange → s.payers ≠ [WorkerPc.crashed]
  invalid : ¬ s.registers.validRange → s.registers.totalCars = 0 ∧
    (s.payers = [] ∨ s.payers = [WorkerPc.idle] ∨ s.payers = [WorkerPc.exited] ∨
      s.payers = [WorkerPc.crashed])

/-- Run of one worker on its own: `n` consecutive steps of `carRefuelingStep`
with the same draw and clock reading. -/
def Station.steps (r : Nat) (elapsed : Int) : Nat → Station × WorkerPc →
    Option (Station × WorkerPc)
  | 0, x => some x
  | n + 1, x =>
    match x.1.carRefuelingStep x.2 r elapsed with
    | some y => Station.steps r elapsed n y
    | none => none

/-- Run of one register worker on its own: `n` consecutive steps of
`paymentStep`. -/
def Register.steps (r : Nat) (elapsed : Int) : Nat → Register × WorkerPc →
    Option (Register × WorkerPc)
  | 0, x => some x
  | n + 1, x =>
    match x.1.paymentStep x.2 r elapsed with
    | some y => Register.steps r elapsed n y
    | none => none

/-! ## Specification-side notions and scenarios -/

/-- Number of servers the configuration asks for: the server counts of all
station types plus the register server count. -/
def configuredServers (c : Config) : Int :=
  (c.Stations.map (fun p => p.2.Count)).sum + c.Registers.Count

/-- A configuration the specification calls invalid: some range has
`min > max`, or some count is zero or negative. -/
def Config.invalid (c : Config) : Prop :=
  c.Cars.Count ≤ 0 ∨ c.Cars.ArrivalTimeMin > c.Cars.ArrivalTimeMax ∨
  c.Registers.Count ≤ 0 ∨ c.Registers.HandleTimeMin > c.Registers.HandleTimeMax ∨
  ∃ p ∈ c.Stations, p.2.Count ≤ 0 ∨ p.2.ServeTimeMin > p.2.ServeTimeMax

/-- The four station types of the sample configuration, one server each,
serve time between 1ns and 3ns. -/
def fourStations : List (String × StationConfig) :=
  [("gas", ⟨1, 1, 3⟩), ("diesel", ⟨1, 1, 3⟩), ("lpg", ⟨1, 1, 3⟩), ("electric", ⟨1, 1, 3⟩)]

/-- Generator schedule for two arrivals, routed to `gas` and `diesel`,
followed by the closing of every queue. -/
def twoArrivals : List Action :=
  [.arrive 0 0, .sendRegister, .arrive 0 1, .sendRegister, .closeRegister,
   .closeStation "gas", .closeStation "diesel", .closeStation "lpg", .closeStation "electric"]

/-- Station workers for `twoArrivals`: `gas` and `diesel` serve one token each
and leave, `lpg` and `electric` leave at once. -/
def twoArrivalsServed : List Action :=
  List.replicate 8 (.refuel "gas" 0 5) ++ List.replicate 8 (.refuel "diesel" 0 5) ++
  [.refuel "lpg" 0 0, .refuel "electric" 0 0]

/-- Two cars, two register servers. -/
def raceConfig : Config := ⟨⟨2, 1, 3⟩, fourStations, ⟨2, 1, 3⟩⟩

/-- A schedule of `raceConfig` in which the two register workers execute
`register.totalCars++` at the same time: both read 0, both write 1. -/
def raceSchedule : List Action :=
  twoArrivals ++ twoArrivalsServed ++
  List.replicate 5 (.pay 0 0 5) ++ List.replicate 4 (.pay 1 0 5) ++
  [.pay 0 0 5, .pay 1 0 5, .pay 0 0 5, .pay 1 0 5, .pay 0 0 5, .pay 1 0 5]

/-- A schedule of `raceConfig` in which the two register workers overlap on
every statistics update: `totalTime`, `maxQueueTime` and `totalCars`.  Worker
0 measures 9ns, worker 1 measures 5ns. -/
def overlapSchedule : List Action :=
  twoArrivals ++ twoArrivalsServed ++
  [.pay 0 0 9, .pay 1 0 5, .pay 0 0 9, .pay 1 0 5, .pay 0 0 9, .pay 1 0 5,
   .pay 0 0 9, .pay 1 0 5, .pay 0 0 9, .pay 1 0 5, .pay 0 0 9, .pay 1 0 5,
   .pay 0 0 9, .pay 1 0 5, .pay 0 0 9, .pay 1 0 5]

/-- One car, one register server. -/
def oneCarConfig : Config := ⟨⟨1, 1, 3⟩, fourStations, ⟨1, 1, 3⟩⟩

/-- A run of `oneCarConfig` whose routing draw selects the station with index
`k` in `stationOptions`, named `name`. -/
def oneCarSchedule (k : Nat) (name : String) : List Action :=
  [.arrive 0 k, .sendRegister, .closeRegister,
   .closeStation "gas", .closeStation "diesel", .closeStation "lpg", .closeStation "electric"] ++
  List.replicate 7 (.refuel name 0 5) ++
  [.refuel "gas" 0 0, .refuel "diesel" 0 0, .refuel "lpg" 0 0, .refuel "electric" 0 0] ++
  List.replicate 8 (.pay 0 0 5)

/-- Another run of `oneCarConfig` routed to `gas`: other draws (the routing
draw 4 selects index 0 again), other clock readings, and the `gas` worker
takes the token before the generator reaches the register. -/
def oneCarOtherSchedule : List Action :=
  [.arrive 7 4, .refuel "gas" 1 20, .sendRegister, .pay 0 1 8, .refuel "gas" 1 20,
   .pay 0 1 8, .closeRegister, .closeStation "electric", .refuel "electric" 0 0,
   .closeStation "lpg", .closeStation "diesel", .closeStation "gas"] ++
  List.replicate 6 (.refuel "gas" 1 20) ++ List.replicate 6 (.pay 0 1 8) ++
  [.refuel "diesel" 0 0, .refuel "lpg" 0 0]

/-- A run of `badConfig` in which the car goes to `diesel`, whose worker
panics on its range with `min > max`; the other workers leave their loops. -/
def panicSchedule : List Action :=
  [.arrive 0 1, .sendRegister, .closeRegister,
   .closeStation "gas", .closeStation "diesel", .closeStation "lpg", .closeStation "electric",
   .refuel "diesel" 0 0, .refuel "gas" 0 0, .refuel "lpg" 0 0, .refuel "electric" 0 0]

/-- Only `gas` is configured. -/
def gasOnlyConfig : Config := ⟨⟨1, 1, 3⟩, [("gas", ⟨1, 1, 3⟩)], ⟨1, 1, 3⟩⟩

/-- Three servers asked for `gas`, one for every other stage. -/
def threeGasConfig : Config :=
  ⟨⟨1, 1, 3⟩, [("gas", ⟨3, 1, 3⟩), ("diesel", ⟨1, 1, 3⟩), ("lpg", ⟨1, 1, 3⟩),
    ("electric", ⟨1, 1, 3⟩)], ⟨1, 1, 3⟩⟩

/-- No register server, no `diesel` server, and a `diesel` serve-time range
with `min > max`. -/
def badConfig : Config :=
  ⟨⟨1, 1, 3⟩, [("gas", ⟨1, 1, 3⟩), ("diesel", ⟨0, 3, 1⟩), ("lpg", ⟨1, 1, 3⟩),
    ("electric", ⟨1, 1, 3⟩)], ⟨0, 1, 3⟩⟩

/-- A complete run of `badConfig`: the car goes to `gas`. -/
def badSchedule : List Action :=
  [.arrive 0 0, .sendRegister, .closeRegister,
   .closeStation "gas", .closeStation "diesel", .closeStation "lpg", .closeStation "electric"] ++
  List.replicate 8 (.refuel "gas" 0 5) ++
  [.refuel "diesel" 0 0, .refuel "lpg" 0 0, .refuel "electric" 0 0]

/-- Every stage serves in exactly one second (`min == max`). -/
def fixedTimeConfig : Config :=
  ⟨⟨1, 1000000000, 2000000000⟩,
   [("gas", ⟨1, 1000000000, 1000000000⟩), ("diesel", ⟨1, 1000000000, 1000000000⟩),
    ("lpg", ⟨1, 1000000000, 1000000000⟩), ("electric", ⟨1, 1000000000, 1000000000⟩)],
   ⟨1, 1000000000, 1000000000⟩⟩

/-- Cars arrive exactly one second apart (`min == max`). -/
def fixedArrivalConfig : Config := ⟨⟨1, 1000000000, 1000000000⟩, fourStations, ⟨1, 1, 3⟩⟩

/-- The largest negative duration two of which no longer fit in 64 bits. -/
def hugeNegative : Int := -4611686018427387905

theorem lookupStation_mem {name : String} {l : List (Station × WorkerPc)}
    {x : Station × WorkerPc} (h : lookupStation name l = some x) : x ∈ l :=
  List.mem_of_find?_eq_some h

theorem sum_setStation (f : Station × WorkerPc → Int) {name : String}
    {l : List (Station × WorkerPc)} {x : Station × WorkerPc} (y : Station × WorkerPc)
    (h : lookupStation name l = some x) :
    ((setStation name y l).map f).sum = (l.map f).sum - f x + f y := by
  induction l with
  | nil => simp [lookupStation] at h
  | cons z l ih =>
    unfold lookupStation at h
    rw [List.find?_cons] at h
    by_cases hz : (z.1.name == name) = true
    · simp only [hz] at h
      have hx : z = x := by simpa using h
      subst hx
      simp only [setStation, hz, if_true, List.map_cons, List.sum_cons]
      omega
    · simp only [hz] at h
      have ih1 := ih h
      simp only [setStation, hz, List.map_cons, List.sum_cons]
      simp only [Bool.false_eq_true, if_false, List.map_cons, List.sum_cons]
      omega

theorem mem_setStation {name : String} {l : List (Station × WorkerPc)}
    {y z : Station × WorkerPc} (h : z ∈ setStation name y l) : z = y ∨ z ∈ l := by
  induction l with
  | nil => simp [setStation] at h
  | cons w l ih =>
    unfold setStation at h
    split at h
    · rcases List.mem_cons.mp h with h1 | h1
      · exact Or.inl h1
      · exact Or.inr (List.mem_cons_of_mem _ h1)
    · rcases List.mem_cons.mp h with h1 | h1
      · exact Or.inr (h1 ▸ List.mem_cons_self _ _)
      · rcases ih h1 with h2 | h2
        · exact Or.inl h2
        · exact Or.inr (List.mem_cons_of_mem _ h2)

theorem le_sum_of_mem (f : Station × WorkerPc → Int) {l : List (Station × WorkerPc)}
    (hf : ∀ z ∈ l, 0 ≤ f z) {x : Station × WorkerPc} (hx : x ∈ l) :
    f x ≤ (l.map f).sum := by
  induction l with
  | nil => simp at hx
  | cons z l ih =>
    have hz := hf z (List.mem_cons_self _ _)
    have hl : 0 ≤ (l.map f).sum :=
      List.sum_nonneg (by
        intro a ha
        obtain ⟨w, hw, rfl⟩ := List.mem_map.mp ha
        exact hf w (List.mem_cons_of_mem _ hw))
    simp only [List.map_cons, List.sum_cons]
    rcases List.mem_cons.mp hx with h1 | h1
    · subst h1; omega
    · have := ih (fun w hw => hf w (List.mem_cons_of_mem _ hw)) h1
      omega

theorem inflight_nonneg (pc : WorkerPc) : 0 ≤ inflight pc := by
  cases pc <;> simp [inflight]

theorem received_nonneg {g : GenPc} {x : Station × WorkerPc} (h : StationOk g x) :
    0 ≤ received x := by
  have h1 := h.1
  have h2 := inflight_nonneg x.2
  unfold received
  omega

theorem wrap64_of_inInt64 {x : Int} (h : inInt64 x) : wrap64 x = x := by
  unfold inInt64 at h
  unfold wrap64
  omega

theorem sampleDuration_isSome_iff (min max : Int) (r : Nat) :
    (sampleDuration min max r).isSome = true ↔ 0 < wrap64 (max - min) := by
  unfold sampleDuration Int63n
  by_cases h : wrap64 (max - min) ≤ 0
  · simp only [h, if_true]
    constructor
    · intro hs; simp at hs
    · intro hp; omega
  · simp only [h, if_false]
    constructor
    · intro _; omega
    · intro _; rfl

/-- A step of a station worker keeps the per-station invariant and neither
creates nor loses a token. -/
theorem carRefuelingStep_ok {g : GenPc} {st st1 : Station} {pc pc1 : WorkerPc} {r : Nat}
    {e : Int} (h : st.carRefuelingStep pc r e = some (st1, pc1))
    (hok : StationOk g (st, pc)) (hb : received (st, pc) < 9223372036854775808) :
    StationOk g (st1, pc1) ∧ received (st1, pc1) = received (st, pc) := by
  obtain ⟨h0, hc, hex, hcl⟩ := hok
  simp only at h0 hc hex hcl
  cases pc with
  | idle =>
    simp only [Station.carRefuelingStep, Chan.recv] at h
    by_cases hlen : 0 < st.queue.len
    · simp only [hlen, if_true] at h
      split at h
      all_goals
        simp only [Option.some.injEq, Prod.mk.injEq] at h
        obtain ⟨rfl, rfl⟩ := h
        refine ⟨⟨h0, by simp, by simp, hcl⟩, ?_⟩
        simp only [received, inflight]
        omega
    · simp only [hlen, if_false] at h
      by_cases hclosed : st.queue.closed = true
      · simp only [hclosed, if_true, Option.some.injEq, Prod.mk.injEq] at h
        obtain ⟨rfl, rfl⟩ := h
        refine ⟨⟨h0, by simp, fun _ => ⟨Nat.eq_zero_of_not_pos hlen, hclosed⟩, hcl⟩, ?_⟩
        simp [received, inflight]
      · simp [hclosed] at h
  | serving d =>
    simp only [Station.carRefuelingStep, Option.some.injEq, Prod.mk.injEq] at h
    obtain ⟨rfl, rfl⟩ := h
    exact ⟨⟨h0, by simp, by simp, hcl⟩, by simp [received, inflight]⟩
  | addTime d t =>
    simp only [Station.carRefuelingStep, Option.some.injEq, Prod.mk.injEq] at h
    obtain ⟨rfl, rfl⟩ := h
    exact ⟨⟨h0, by simp, by simp, hcl⟩, by simp [received, inflight]⟩
  | measure =>
    simp only [Station.carRefuelingStep] at h
    split at h
    all_goals
      simp only [Option.some.injEq, Prod.mk.injEq] at h
      obtain ⟨rfl, rfl⟩ := h
      exact ⟨⟨h0, by simp, by simp, hcl⟩, by simp [received, inflight]⟩
  | setMax m =>
    simp only [Station.carRefuelingStep, Option.some.injEq, Prod.mk.injEq] at h
    obtain ⟨rfl, rfl⟩ := h
    exact ⟨⟨h0, by simp, by simp, hcl⟩, by simp [received, inflight]⟩
  | incr =>
    simp only [Station.carRefuelingStep, Option.some.injEq, Prod.mk.injEq] at h
    obtain ⟨rfl, rfl⟩ := h
    exact ⟨⟨h0, by simp, by simp, hcl⟩, by simp [received, inflight]⟩
  | storeCars c =>
    simp only [Station.carRefuelingStep, Option.some.injEq, Prod.mk.injEq] at h
    obtain ⟨rfl, rfl⟩ := h
    have hc1 : c = st.totalCars := hc c rfl
    subst hc1
    simp only [received, inflight] at hb
    have hw : wrap64 (st.totalCars + 1) = st.totalCars + 1 :=
      wrap64_of_inInt64 ⟨by omega, by omega⟩
    refine ⟨⟨by simp only [hw]; omega, by simp, by simp, hcl⟩, ?_⟩
    simp only [received, inflight, hw]
    omega
  | exited =>
    simp [Station.carRefuelingStep] at h
  | crashed =>
    simp [Station.carRefuelingStep] at h

/-- A step of a station worker leaves the name and the serve-time range
alone, panics only on a range without positive width, and counts nothing on
such a range. -/
theorem carRefuelingStep_range {st st1 : Station} {pc pc1 : WorkerPc} {r : Nat} {e : Int}
    (h : st.carRefuelingStep pc r e = some (st1, pc1)) :
    fixedPart (st1, pc1) = fixedPart (st, pc) ∧
    (st.validRange → pc1 ≠ WorkerPc.crashed) ∧
    (¬ st.validRange → pc = WorkerPc.idle →
      st1.totalCars = st.totalCars ∧ (pc1 = WorkerPc.exited ∨ pc1 = WorkerPc.crashed)) := by
  cases pc with
  | idle =>
    simp only [Station.carRefuelingStep] at h
    split at h
    · simp at h
    · simp only [Option.some.injEq, Prod.mk.injEq] at h
      obtain ⟨rfl, rfl⟩ := h
      exact ⟨rfl, by simp, fun _ _ => ⟨rfl, Or.inl rfl⟩⟩
    · split at h
      · rename_i hs
        simp only [Option.some.injEq, Prod.mk.injEq] at h
        obtain ⟨rfl, rfl⟩ := h
        refine ⟨rfl, ?_, fun _ _ => ⟨rfl, Or.inr rfl⟩⟩
        intro hv
        have := (sampleDuration_isSome_iff st.serveTimeMin st.serveTimeMax r).mpr hv
        rw [hs] at this
        simp at this
      · rename_i d hs
        simp only [Option.some.injEq, Prod.mk.injEq] at h
        obtain ⟨rfl, rfl⟩ := h
        refine ⟨rfl, by simp, ?_⟩
        intro hv _
        have := (sampleDuration_isSome_iff st.serveTimeMin st.serveTimeMax r).mp
          (by rw [hs]; rfl)
        exact absurd this hv
  | serving d =>
    simp only [Station.carRefuelingStep, Option.some.injEq, Prod.mk.injEq] at h
    obtain ⟨rfl, rfl⟩ := h
    exact ⟨rfl, by simp, by simp⟩
  | addTime d t =>
    simp only [Station.carRefuelingStep, Option.some.injEq, Prod.mk.injEq] at h
    obtain ⟨rfl, rfl⟩ := h
    exact ⟨rfl, by simp, by simp⟩
  | measure =>
    simp only [Station.carRefuelingStep] at h
    split at h
    all_goals
      simp only [Option.some.injEq, Prod.mk.injEq] at h
      obtain ⟨rfl, rfl⟩ := h
      exact ⟨rfl, by simp, by simp⟩
  | setMax m =>
    simp only [Station.carRefuelingStep, Option.some.injEq, Prod.mk.injEq] at h
    obtain ⟨rfl, rfl⟩ := h
    exact ⟨rfl, by simp, by simp⟩
  | incr =>
    simp only [Station.carRefuelingStep, Option.some.injEq, Prod.mk.injEq] at h
    obtain ⟨rfl, rfl⟩ := h
    exact ⟨rfl, by simp, by simp⟩
  | storeCars c =>
    simp only [Station.carRefuelingStep, Option.some.injEq, Prod.mk.injEq] at h
    obtain ⟨rfl, rfl⟩ := h
    exact ⟨rfl, by simp, by simp⟩
  | exited =>
    simp [Station.carRefuelingStep] at h
  | crashed =>
    simp [Station.carRefuelingStep] at h

/-- Replacing one station keeps the invariant when the replacement accounts
for `d` more tokens and the generator has submitted `d` more. -/
theorem Inv.update {c : Config} {s s1 : Sys} (h : Inv c s) {name : String}
    {x y : Station × WorkerPc} {d : Int} (hl : lookupStation name s.stations = some x)
    (hcfg : s1.config = s.config) (hst : s1.stations = setStation name y s.stations)
    (hy : StationOk s1.gen y) (hmono : ∀ z ∈ s.stations, StationOk s1.gen z)
    (hd : received y = received x + d)
    (htot : s1.gen ≠ GenPc.crashed →
      s.gen ≠ GenPc.crashed ∧ submitted c s1.gen = submitted c s.gen + d)
    (hle : (s.stations.map received).sum + d ≤ c.Cars.Count)
    (hb : submitted c s1.gen ≤ c.Cars.Count) : Inv c s1 := by
  have hsum := sum_setStation received y hl
  refine ⟨hcfg.trans h.cfg, ?_, ?_, hb, ?_⟩
  · intro hg
    obtain ⟨hg0, he⟩ := htot hg
    rw [hst, hsum, h.total hg0, he]
    omega
  · rw [hst, hsum]
    omega
  · intro z hz
    rw [hst] at hz
    rcases mem_setStation hz with h1 | h1
    · exact h1 ▸ hy
    · exact hmono z h1

/-- A step that leaves the stations and the generator alone keeps the
invariant. -/
theorem Inv.frame {c : Config} {s s1 : Sys} (h : Inv c s) (hcfg : s1.config = s.config)
    (hst : s1.stations = s.stations) (hg : s1.gen = s.gen) : Inv c s1 :=
  ⟨hcfg.trans h.cfg, by rw [hst, hg]; exact h.total, by rw [hst]; exact h.sumle,
    by rw [hg]; exact h.bound, by rw [hst, hg]; exact h.ok⟩

theorem StationOk.of_open {g g1 : GenPc} {x : Station × WorkerPc} (h : StationOk g x)
    (hg : g ≠ GenPc.closing) : StationOk g1 x := by
  obtain ⟨h0, hc, hex, hcl⟩ := h
  have hopen : ¬ x.1.queue.closed = true := fun hx => hg (hcl hx)
  exact ⟨h0, hc, fun hx => absurd (hex hx).2 hopen, fun hx => absurd hx hopen⟩

/-- A panic of the generator before it starts closing keeps the invariant. -/
theorem Inv.crashKept {c : Config} {s : Sys} (h : Inv c s) (hg : s.gen ≠ GenPc.closing) :
    Inv c (genCrash s) :=
  ⟨h.cfg, fun hne => absurd rfl hne, h.sumle, le_refl _,
    fun z hz => (h.ok z hz).of_open hg⟩

theorem genArrive_inv {c : Config} {s s1 : Sys} {rd rs : Nat} (h : Inv c s)
    (hs : genArrive s rd rs = some s1) : Inv c s1 := by
  unfold genArrive at hs
  split at hs
  · rename_i i hgen
    have hne : s.gen ≠ GenPc.closing := by rw [hgen]; simp
    have hnc : s.gen ≠ GenPc.crashed := by rw [hgen]; simp
    split at hs
    · rename_i hlt
      split at hs
      · cases hs; exact h.crashKept hne
      · split at hs
        · cases hs; exact h.crashKept hne
        · split at hs
          · cases hs; exact h.crashKept hne
          · rename_i name station pc hl
            split at hs
            · simp at hs
            · cases hs; exact h.crashKept hne
            · rename_i q hsend
              cases hs
              have hx := h.ok _ (lookupStation_mem hl)
              have hopen : ¬ station.queue.closed = true := fun hx1 => hne (hx.2.2.2 hx1)
              unfold Chan.send at hsend
              rw [if_neg hopen] at hsend
              split at hsend
              · simp only [Outcome.next.injEq] at hsend
                subst hsend
                have ht := h.total hnc
                rw [hgen] at ht
                simp only [submitted] at ht
                rw [h.cfg] at hlt
                refine h.update (d := 1) hl rfl rfl ?_ ?_ ?_ ?_ ?_ ?_
                · exact ⟨hx.1, hx.2.1, fun he => absurd (hx.2.2.1 he).2 hopen,
                    fun hcl => absurd hcl hopen⟩
                · intro z hz
                  exact (h.ok z hz).of_open hne
                · simp only [received]
                  push_cast
                  omega
                · intro _
                  exact ⟨hnc, by simp only [hgen, submitted]⟩
                · omega
                · simp only [submitted]
                  omega
              · simp at hsend
    · simp at hs
  · simp at hs

theorem genSendRegister_inv {c : Config} {s s1 : Sys} (h : Inv c s)
    (hs : genSendRegister s = some s1) : Inv c s1 := by
  unfold genSendRegister at hs
  split at hs
  · rename_i i hgen
    have hne : s.gen ≠ GenPc.closing := by rw [hgen]; simp
    have hnc : s.gen ≠ GenPc.crashed := by rw [hgen]; simp
    split at hs
    · simp at hs
    · cases hs; exact h.crashKept hne
    · cases hs
      have ht := h.total hnc
      have hb := h.bound
      rw [hgen] at ht hb
      simp only [submitted] at ht hb
      refine ⟨h.cfg, fun _ => ?_, h.sumle, ?_, fun z hz => (h.ok z hz).of_open hne⟩
      · simp only [submitted]; push_cast; omega
      · simp only [submitted]; push_cast; omega
  · simp at hs

theorem genCloseRegister_inv {c : Config} {s s1 : Sys} (h : Inv c s)
    (hs : genCloseRegister s = some s1) : Inv c s1 := by
  unfold genCloseRegister at hs
  split at hs
  · rename_i i hgen
    have hne : s.gen ≠ GenPc.closing := by rw [hgen]; simp
    have hnc : s.gen ≠ GenPc.crashed := by rw [hgen]; simp
    split at hs
    · simp at hs
    · rename_i hge
      rw [h.cfg] at hge
      split at hs
      · simp at hs
      · cases hs; exact h.crashKept hne
      · cases hs
        have ht := h.total hnc
        have hb := h.bound
        rw [hgen] at ht hb
        simp only [submitted] at ht hb
        refine ⟨h.cfg, fun _ => ?_, h.sumle, ?_, fun z hz => (h.ok z hz).of_open hne⟩
        · simp only [submitted]; omega
        · simp only [submitted]; omega
  · simp at hs

theorem genCloseStation_inv {c : Config} {s s1 : Sys} {name : String} (h : Inv c s)
    (hs : genCloseStation s name = some s1) : Inv c s1 := by
  unfold genCloseStation at hs
  split at hs
  · rename_i hgen
    split at hs
    · simp at hs
    · rename_i station pc hl
      split at hs
      · simp at hs
      · rename_i hopen
        unfold Chan.close at hs
        rw [if_neg hopen] at hs
        simp only [Option.some.injEq] at hs
        subst hs
        have hx := h.ok _ (lookupStation_mem hl)
        have hnc : s.gen ≠ GenPc.crashed := by rw [hgen]; simp
        refine h.update (d := 0) hl rfl rfl ?_ (fun z hz => h.ok z hz) ?_ ?_ ?_ h.bound
        · exact ⟨hx.1, hx.2.1, fun he => ⟨(hx.2.2.1 he).1, rfl⟩, fun _ => hgen⟩
        · simp [received]
        · intro _
          exact ⟨hnc, by simp⟩
        · have := h.sumle
          omega
  · simp at hs

theorem stationWork_inv {c : Config} {s s1 : Sys} {name : String} {r : Nat} {e : Int}
    (h : Inv c s) (hN : c.Cars.Count < 9223372036854775808)
    (hs : stationWork s name r e = some s1) : Inv c s1 := by
  unfold stationWork at hs
  split at hs
  · simp at hs
  · rename_i station pc hl
    split at hs
    · simp at hs
    · rename_i station1 pc1 hstep
      cases hs
      have hmem := lookupStation_mem hl
      have hle := le_sum_of_mem received (fun z hz => received_nonneg (h.ok z hz)) hmem
      have hs := h.sumle
      obtain ⟨hok1, hrec⟩ := carRefuelingStep_ok hstep (h.ok _ hmem) (by omega)
      refine h.update (d := 0) hl rfl rfl hok1 (fun z hz => h.ok z hz) ?_ ?_ ?_ h.bound
      · rw [hrec]; omega
      · intro hg
        exact ⟨hg, by simp⟩
      · omega

theorem registerWork_inv {c : Config} {s s1 : Sys} {k r : Nat} {e : Int} (h : Inv c s)
    (hs : registerWork s k r e = some s1) : Inv c s1 := by
  unfold registerWork at hs
  split at hs
  · simp at hs
  · split at hs
    · simp at hs
    · cases hs; exact h.frame rfl rfl rfl

/-- Every step of the program keeps the invariant. -/
theorem step_inv {c : Config} {s s1 : Sys} {a : Action} (h : Inv c s)
    (hN : c.Cars.Count < 9223372036854775808) (hs : step s a = some s1) : Inv c s1 := by
  cases a with
  | arrive rd rs => exact genArrive_inv h hs
  | sendRegister => exact genSendRegister_inv h hs
  | closeRegister => exact genCloseRegister_inv h hs
  | closeStation name => exact genCloseStation_inv h hs
  | refuel name r e => exact stationWork_inv h hN hs
  | pay k r e => exact registerWork_inv h hs

/-- Every schedule keeps the invariant. -/
theorem run_inv {c : Config} (hN : c.Cars.Count < 9223372036854775808) (as : List Action) :
    ∀ {s s1 : Sys}, Inv c s → run s as = some s1 → Inv c s1 := by
  induction as with
  | nil =>
    intro s s1 h hr
    simp only [run, Option.some.injEq] at hr
    exact hr ▸ h
  | cons a as ih =>
    intro s s1 h hr
    simp only [run] at hr
    split at hr
    · simp at hr
    · rename_i s2 hstep
      exact ih (step_inv h hN hstep) hr

/-! ## Start-up -/

theorem makeChan_eq_none {n : Int} : makeChan n = none ↔ n < 0 := by
  unfold makeChan
  split <;> simp [*]

theorem initStations_isSome {n : Int} (hn : 0 ≤ n) (l : List (String × StationConfig)) :
    ∃ sts, initStations n l = some sts := by
  induction l with
  | nil => exact ⟨[], rfl⟩
  | cons p l ih =>
    obtain ⟨sts, hsts⟩ := ih
    obtain ⟨name, sc⟩ := p
    have hq : makeChan n = some ⟨n.toNat, 0, false⟩ := by
      unfold makeChan
      rw [if_neg (by omega)]
    simp only [initStations, hq, hsts]
    exact ⟨_, rfl⟩

theorem initStations_spec {n : Int} :
    ∀ {l : List (String × StationConfig)} {sts : List Station}, initStations n l = some sts →
      sts.map (fun st => st.name) = l.map Prod.fst ∧
      ∀ st ∈ sts, st.totalCars = 0 ∧ st.queue.len = 0 ∧ st.queue.closed = false := by
  intro l
  induction l with
  | nil =>
    intro sts h
    simp only [initStations, Option.some.injEq] at h
    subst h
    simp
  | cons p l ih =>
    intro sts h
    obtain ⟨name, sc⟩ := p
    simp only [initStations] at h
    split at h
    · simp at h
    · rename_i q hq
      split at h
      · simp at h
      · rename_i rest hrest
        simp only [Option.some.injEq] at h
        subst h
        obtain ⟨hn, hall⟩ := ih hrest
        have hq1 : q.len = 0 ∧ q.closed = false := by
          unfold makeChan at hq
          split at hq
          · simp at hq
          · simp only [Option.some.injEq] at hq
            subst hq
            exact ⟨rfl, rfl⟩
        refine ⟨by simp [hn, newStation], ?_⟩
        intro st hst
        rcases List.mem_cons.mp hst with h1 | h1
        · subst h1
          exact ⟨rfl, hq1.1, hq1.2⟩
        · exact hall st h1

/-- Start-up panics exactly when the arrival count is negative (the
allocation of the first queue fails). -/
theorem start_eq_none_iff (c : Config) : start c = none ↔ c.Cars.Count < 0 := by
  constructor
  · intro h
    by_contra hn
    obtain ⟨sts, hsts⟩ := initStations_isSome (not_lt.mp hn) c.Stations
    have hq : makeChan c.Cars.Count = some ⟨c.Cars.Count.toNat, 0, false⟩ := by
      unfold makeChan
      rw [if_neg hn]
    simp [start, hq, hsts] at h
  · intro h
    have hq : makeChan c.Cars.Count = none := makeChan_eq_none.mpr h
    simp [start, hq]

/-- The state produced by start-up. -/
theorem start_spec {c : Config} {s : Sys} (h : start c = some s) :
    0 ≤ c.Cars.Count ∧ s.config = c ∧ s.gen = GenPc.loop 0 ∧ s.panicked = false ∧
    s.payers = List.replicate c.Registers.Count.toNat WorkerPc.idle ∧
    s.wg = c.Stations.length + c.Registers.Count.toNat ∧
    s.stations.map (fun x => x.1.name) = c.stationNames ∧
    ∀ x ∈ s.stations, x.1.totalCars = 0 ∧ x.1.queue.len = 0 ∧ x.1.queue.closed = false ∧
      x.2 = WorkerPc.idle := by
  have hn : 0 ≤ c.Cars.Count := by
    by_contra hneg
    rw [(start_eq_none_iff c).mpr (by omega)] at h
    simp at h
  unfold start at h
  split at h
  · simp at h
  · split at h
    · simp at h
    · rename_i q hq sts hsts
      simp only [Option.some.injEq] at h
      subst h
      obtain ⟨hnames, hall⟩ := initStations_spec hsts
      have hlen : sts.length = c.Stations.length := by
        have := congrArg List.length hnames
        simpa using this
      refine ⟨hn, rfl, rfl, rfl, rfl, by simp [hlen, newRegister], ?_, ?_⟩
      · simp only [List.map_map, Config.stationNames]
        exact hnames
      · intro x hx
        obtain ⟨st, hst, rfl⟩ := List.mem_map.mp hx
        obtain ⟨h1, h2, h3⟩ := hall st hst
        exact ⟨h1, h2, h3, rfl⟩

/-- The register created by start-up. -/
theorem start_register {c : Config} {s : Sys} (h : start c = some s) :
    s.registers.totalCars = 0 ∧ s.registers.queue.len = 0 ∧
    s.registers.queue.closed = false ∧
    s.registers.handleTimeMin = c.Registers.HandleTimeMin ∧
    s.registers.handleTimeMax = c.Registers.HandleTimeMax := by
  unfold start at h
  split at h
  · simp at h
  · rename_i q hq
    split at h
    · simp at h
    · simp only [Option.some.injEq] at h
      subst h
      unfold makeChan at hq
      split at hq
      · simp at hq
      · simp only [Option.some.injEq] at hq
        subst hq
        exact ⟨rfl, rfl, rfl, rfl, rfl⟩

theorem start_received {c : Config} {s : Sys} (h : start c = some s) :
    (s.stations.map received).sum = 0 := by
  obtain ⟨_, _, _, _, _, _, _, hall⟩ := start_spec h
  apply List.sum_eq_zero
  intro v hv
  obtain ⟨x, hx, rfl⟩ := List.mem_map.mp hv
  obtain ⟨h1, h2, _, h4⟩ := hall x hx
  simp [received, h1, h2, h4, inflight]

theorem start_stationOk {c : Config} {s : Sys} (h : start c = some s) :
    ∀ x ∈ s.stations, StationOk s.gen x := by
  obtain ⟨_, _, _, _, _, _, _, hall⟩ := start_spec h
  intro x hx
  obtain ⟨h1, h2, h3, h4⟩ := hall x hx
  refine ⟨by omega, ?_, ?_, ?_⟩
  · intro v hv
    rw [h4] at hv
    simp at hv
  · intro hv
    rw [h4] at hv
    simp at hv
  · intro hv
    rw [h3] at hv
    simp at hv

/-- The invariant holds after start-up. -/
theorem start_inv {c : Config} {s : Sys} (h : start c = some s) : Inv c s := by
  obtain ⟨hn, hcfg, hgen, _, _, _, _, _⟩ := start_spec h
  have hsum := start_received h
  refine ⟨hcfg, ?_, ?_, ?_, start_stationOk h⟩
  · intro _
    rw [hgen, hsum]
    simp [submitted]
  · rw [hsum]; exact hn
  · rw [hgen]
    simp only [submitted, Nat.cast_zero]
    exact hn

/-- In a completed state the station counters add up to the arrival count. -/
theorem stationTotal_of_completed {c : Config} {s : Sys} (h : Inv c s) (hc : completed s) :
    stationTotal s = c.Cars.Count := by
  obtain ⟨_, hgen, _, hst, _⟩ := hc
  have ht := h.total (by rw [hgen]; simp)
  rw [hgen] at ht
  simp only [submitted] at ht
  rw [← ht]
  unfold stationTotal
  congr 1
  apply List.map_congr_left
  intro x hx
  have hex := (hst x hx).2
  have hq := ((h.ok x hx).2.2.1 hex).1
  simp [received, hex, hq, inflight]

/-- Every completed run of a started program ends with station counters that
add up to the arrival count. -/
theorem stationTotal_run {c : Config} (hN : c.Cars.Count < 9223372036854775808)
    {s0 s : Sys} {as : List Action} (h0 : start c = some s0) (hr : run s0 as = some s)
    (hc : completed s) : stationTotal s = c.Cars.Count :=
  stationTotal_of_completed (run_inv hN as (start_inv h0) hr) hc

/-! ## The register stage with at most one worker -/

/-- A step of a register worker that no other worker interferes with keeps
the register invariant and neither creates nor loses a token. -/
theorem paymentStep_ok {rg rg1 : Register} {pc pc1 : WorkerPc} {r : Nat} {e : Int}
    (h : rg.paymentStep pc r e = some (rg1, pc1))
    (h0 : 0 ≤ rg.totalCars) (hc : ∀ v, pc = WorkerPc.storeCars v → v = rg.totalCars)
    (hb : rg.totalCars + rg.queue.len + inflight pc < 9223372036854775808) :
    0 ≤ rg1.totalCars ∧ (∀ v, pc1 = WorkerPc.storeCars v → v = rg1.totalCars) ∧
    (pc1 = WorkerPc.exited → rg1.queue.len = 0 ∧ rg1.queue.closed = true) ∧
    rg1.queue.closed = rg.queue.closed ∧
    rg1.totalCars + rg1.queue.len + inflight pc1 = rg.totalCars + rg.queue.len + inflight pc := by
  cases pc with
  | idle =>
    simp only [Register.paymentStep, Chan.recv] at h
    by_cases hlen : 0 < rg.queue.len
    · simp only [hlen, if_true] at h
      split at h
      all_goals
        simp only [Option.some.injEq, Prod.mk.injEq] at h
        obtain ⟨rfl, rfl⟩ := h
        refine ⟨h0, by simp, by simp, rfl, ?_⟩
        simp only [inflight]
        omega
    · simp only [hlen, if_false] at h
      by_cases hclosed : rg.queue.closed = true
      · simp only [hclosed, if_true, Option.some.injEq, Prod.mk.injEq] at h
        obtain ⟨rfl, rfl⟩ := h
        exact ⟨h0, by simp, fun _ => ⟨Nat.eq_zero_of_not_pos hlen, hclosed⟩, rfl,
          by simp [inflight]⟩
      · simp [hclosed] at h
  | serving d =>
    simp only [Register.paymentStep, Option.some.injEq, Prod.mk.injEq] at h
    obtain ⟨rfl, rfl⟩ := h
    exact ⟨h0, by simp, by simp, rfl, by simp [inflight]⟩
  | addTime d t =>
    simp only [Register.paymentStep, Option.some.injEq, Prod.mk.injEq] at h
    obtain ⟨rfl, rfl⟩ := h
    exact ⟨h0, by simp, by simp, rfl, by simp [inflight]⟩
  | measure =>
    simp only [Register.paymentStep] at h
    split at h
    all_goals
      simp only [Option.some.injEq, Prod.mk.injEq] at h
      obtain ⟨rfl, rfl⟩ := h
      exact ⟨h0, by simp, by simp, rfl, by simp [inflight]⟩
  | setMax m =>
    simp only [Register.paymentStep, Option.some.injEq, Prod.mk.injEq] at h
    obtain ⟨rfl, rfl⟩ := h
    exact ⟨h0, by simp, by simp, rfl, by simp [inflight]⟩
  | incr =>
    simp only [Register.paymentStep, Option.some.injEq, Prod.mk.injEq] at h
    obtain ⟨rfl, rfl⟩ := h
    exact ⟨h0, by simp, by simp, rfl, by simp [inflight]⟩
  | storeCars v =>
    simp only [Register.paymentStep, Option.some.injEq, Prod.mk.injEq] at h
    obtain ⟨rfl, rfl⟩ := h
    have hv : v = rg.totalCars := hc v rfl
    subst hv
    simp only [inflight] at hb
    have hw : wrap64 (rg.totalCars + 1) = rg.totalCars + 1 :=
      wrap64_of_inInt64 ⟨by omega, by omega⟩
    refine ⟨by simp only [hw]; omega, by simp, by simp, rfl, ?_⟩
    simp only [inflight, hw]
    omega
  | exited =>
    simp [Register.paymentStep] at h
  | crashed =>
    simp [Register.paymentStep] at h

/-- A step of a register worker leaves the handle-time range alone, panics
only on a range without positive width, and counts nothing on such a
range. -/
theorem paymentStep_range {rg rg1 : Register} {pc pc1 : WorkerPc} {r : Nat} {e : Int}
    (h : rg.paymentStep pc r e = some (rg1, pc1)) :
    (rg1.handleTimeMin = rg.handleTimeMin ∧ rg1.handleTimeMax = rg.handleTimeMax) ∧
    (rg.validRange → pc1 ≠ WorkerPc.crashed) ∧
    (¬ rg.validRange → pc = WorkerPc.idle →
      rg1.totalCars = rg.totalCars ∧ (pc1 = WorkerPc.exited ∨ pc1 = WorkerPc.crashed)) := by
  cases pc with
  | idle =>
    simp only [Register.paymentStep] at h
    split at h
    · simp at h
    · simp only [Option.some.injEq, Prod.mk.injEq] at h
      obtain ⟨rfl, rfl⟩ := h
      exact ⟨⟨rfl, rfl⟩, by simp, fun _ _ => ⟨rfl, Or.inl rfl⟩⟩
    · split at h
      · rename_i hs
        simp only [Option.some.injEq, Prod.mk.injEq] at h
        obtain ⟨rfl, rfl⟩ := h
        refine ⟨⟨rfl, rfl⟩, ?_, fun _ _ => ⟨rfl, Or.inr rfl⟩⟩
        intro hv
        have := (sampleDuration_isSome_iff rg.handleTimeMin rg.handleTimeMax r).mpr hv
        rw [hs] at this
        simp at this
      · rename_i d hs
        simp only [Option.some.injEq, Prod.mk.injEq] at h
        obtain ⟨rfl, rfl⟩ := h
        refine ⟨⟨rfl, rfl⟩, by simp, ?_⟩
        intro hv _
        have := (sampleDuration_isSome_iff rg.handleTimeMin rg.handleTimeMax r).mp
          (by rw [hs]; rfl)
        exact absurd this hv
  | serving d =>
    simp only [Register.paymentStep, Option.some.injEq, Prod.mk.injEq] at h
    obtain ⟨rfl, rfl⟩ := h
    exact ⟨⟨rfl, rfl⟩, by simp, by simp⟩
  | addTime d t =>
    simp only [Register.paymentStep, Option.some.injEq, Prod.mk.injEq] at h
    obtain ⟨rfl, rfl⟩ := h
    exact ⟨⟨rfl, rfl⟩, by simp, by simp⟩
  | measure =>
    simp only [Register.paymentStep] at h
    split at h
    all_goals
      simp only [Option.some.injEq, Prod.mk.injEq] at h
      obtain ⟨rfl, rfl⟩ := h
      exact ⟨⟨rfl, rfl⟩, by simp, by simp⟩
  | setMax m =>
    simp only [Register.paymentStep, Option.some.injEq, Prod.mk.injEq] at h
    obtain ⟨rfl, rfl⟩ := h
    exact ⟨⟨rfl, rfl⟩, by simp, by simp⟩
  | incr =>
    simp only [Register.paymentStep, Option.some.injEq, Prod.mk.injEq] at h
    obtain ⟨rfl, rfl⟩ := h
    exact ⟨⟨rfl, rfl⟩, by simp, by simp⟩
  | storeCars c =>
    simp only [Register.paymentStep, Option.some.injEq, Prod.mk.injEq] at h
    obtain ⟨rfl, rfl⟩ := h
    exact ⟨⟨rfl, rfl⟩, by simp, by simp⟩
  | exited =>
    simp [Register.paymentStep] at h
  | crashed =>
    simp [Register.paymentStep] at h

/-- A step that leaves the register, its worker and the generator alone keeps
the register invariant. -/
theorem RegInv.keep {c : Config} {s s1 : Sys} (h : RegInv c s) (hcfg : s1.config = s.config)
    (hr : s1.registers = s.registers) (hp : s1.payers = s.payers) (hg : s1.gen = s.gen) :
    RegInv c s1 := by
  refine ⟨hcfg.trans h.cfg, ?_, ?_, ?_, ?_, ?_, ?_, ?_, ?_, ?_, ?_, ?_, ?_⟩
  · rw [hr]; exact h.fixed
  · rw [hp]; exact h.few
  · rw [hr, hp]; exact h.idle
  · unfold regReceived; rw [hr, hp, hg]; exact h.total
  · unfold regReceived; rw [hr, hp]; exact h.sumle
  · rw [hg]; exact h.bound
  · rw [hr]; exact h.nonneg
  · rw [hr, hp]; exact h.store
  · rw [hr, hp]; exact h.gone
  · rw [hr, hg]; exact h.closed
  · rw [hr, hp]; exact h.valid
  · rw [hr, hp]; exact h.invalid

/-- A step of the generator that only changes its control point keeps the
register invariant, given the facts that depend on the control point. -/
theorem RegInv.regen {c : Config} {s s1 : Sys} (h : RegInv c s) (hcfg : s1.config = s.config)
    (hr : s1.registers = s.registers) (hp : s1.payers = s.payers)
    (ht : s1.gen ≠ GenPc.crashed → s.gen ≠ GenPc.crashed ∧
      regSubmitted c s1.gen = regSubmitted c s.gen)
    (hb : submitted c s1.gen ≤ c.Cars.Count) (hne : s.gen ≠ GenPc.closing) : RegInv c s1 := by
  have hopen : ¬ s.registers.queue.closed = true := fun hx => hne (h.closed hx)
  refine ⟨hcfg.trans h.cfg, ?_, ?_, ?_, ?_, ?_, hb, ?_, ?_, ?_, ?_, ?_, ?_⟩
  · rw [hr]; exact h.fixed
  · rw [hp]; exact h.few
  · rw [hr, hp]; exact h.idle
  · intro hg
    obtain ⟨hg0, he⟩ := ht hg
    unfold regReceived
    rw [hr, hp, he]
    exact h.total hg0
  · unfold regReceived; rw [hr, hp]; exact h.sumle
  · rw [hr]; exact h.nonneg
  · rw [hr, hp]; exact h.store
  · rw [hr, hp]; exact h.gone
  · rw [hr]; intro hx; exact absurd hx hopen
  · rw [hr, hp]; exact h.valid
  · rw [hr, hp]; exact h.invalid

theorem RegInv.afterCrash {c : Config} {s : Sys} (h : RegInv c s) (hne : s.gen ≠ GenPc.closing) :
    RegInv c (genCrash s) :=
  h.regen rfl rfl rfl (fun hg => absurd rfl hg) (le_refl _) hne

theorem genStep_regInv {c : Config} {s s1 : Sys} {a : Action} (h : RegInv c s)
    (ha : ∀ k r e, a ≠ Action.pay k r e) (hs : step s a = some s1) : RegInv c s1 := by
  cases a with
  | arrive rd rs =>
    simp only [step] at hs
    unfold genArrive at hs
    split at hs
    · rename_i i hgen
      have hne : s.gen ≠ GenPc.closing := by rw [hgen]; simp
      have hnc : s.gen ≠ GenPc.crashed := by rw [hgen]; simp
      split at hs
      · rename_i hlt
        rw [h.cfg] at hlt
        split at hs
        · cases hs; exact h.afterCrash hne
        · split at hs
          · cases hs; exact h.afterCrash hne
          · split at hs
            · cases hs; exact h.afterCrash hne
            · split at hs
              · simp at hs
              · cases hs; exact h.afterCrash hne
              · cases hs
                refine h.regen rfl rfl rfl (fun _ => ⟨hnc, ?_⟩) ?_ hne
                · simp only [hgen, regSubmitted]
                · simp only [submitted]; omega
      · simp at hs
    · simp at hs
  | sendRegister =>
    simp only [step] at hs
    unfold genSendRegister at hs
    split at hs
    · rename_i i hgen
      have hne : s.gen ≠ GenPc.closing := by rw [hgen]; simp
      have hnc : s.gen ≠ GenPc.crashed := by rw [hgen]; simp
      have hopen : ¬ s.registers.queue.closed = true := fun hx => hne (h.closed hx)
      split at hs
      · simp at hs
      · cases hs; exact h.afterCrash hne
      · rename_i q hsend
        cases hs
        unfold Chan.send at hsend
        rw [if_neg hopen] at hsend
        split at hsend
        · simp only [Outcome.next.injEq] at hsend
          subst hsend
          have ht := h.total hnc
          have hb := h.bound
          rw [hgen] at ht hb
          simp only [regReceived, regSubmitted, submitted] at ht hb
          refine ⟨h.cfg, h.fixed, h.few, h.idle, ?_, ?_, ?_, h.nonneg, h.store, ?_, ?_,
            h.valid, h.invalid⟩
          · intro _
            simp only [regReceived, regSubmitted]
            push_cast
            omega
          · simp only [regReceived]
            push_cast
            omega
          · simp only [submitted]
            push_cast
            omega
          · intro hp
            exact absurd (h.gone hp).2 hopen
          · intro hcl
            exact absurd hcl hopen
        · simp at hsend
    · simp at hs
  | closeRegister =>
    simp only [step] at hs
    unfold genCloseRegister at hs
    split at hs
    · rename_i i hgen
      have hne : s.gen ≠ GenPc.closing := by rw [hgen]; simp
      have hnc : s.gen ≠ GenPc.crashed := by rw [hgen]; simp
      split at hs
      · simp at hs
      · rename_i hge
        rw [h.cfg] at hge
        split at hs
        · simp at hs
        · cases hs; exact h.afterCrash hne
        · rename_i q hclose
          cases hs
          unfold Chan.close at hclose
          split at hclose
          · simp at hclose
          · simp only [Outcome.next.injEq] at hclose
            subst hclose
            have ht := h.total hnc
            have hb := h.bound
            rw [hgen] at ht hb
            simp only [regReceived, regSubmitted, submitted] at ht hb
            refine ⟨h.cfg, h.fixed, h.few, h.idle, ?_, h.sumle, ?_, h.nonneg, h.store, ?_,
              fun _ => rfl, h.valid, h.invalid⟩
            · intro _
              simp only [regReceived, regSubmitted]
              omega
            · simp only [submitted]
              omega
            · intro hp
              exact ⟨(h.gone hp).1, rfl⟩
    · simp at hs
  | closeStation name =>
    simp only [step] at hs
    unfold genCloseStation at hs
    split at hs
    · split at hs
      · simp at hs
      · split at hs
        · simp at hs
        · rename_i hopen
          unfold Chan.close at hs
          rw [if_neg hopen] at hs
          cases hs
          exact h.keep rfl rfl rfl rfl
    · simp at hs
  | refuel name r e =>
    simp only [step] at hs
    unfold stationWork at hs
    split at hs
    · simp at hs
    · split at hs
      · simp at hs
      · cases hs; exact h.keep rfl rfl rfl rfl
  | pay k r e => exact absurd rfl (ha k r e)

theorem registerWork_regInv {c : Config} {s s1 : Sys} {k r : Nat} {e : Int} (h : RegInv c s)
    (hN : c.Cars.Count < 9223372036854775808) (hs : registerWork s k r e = some s1) :
    RegInv c s1 := by
  unfold registerWork at hs
  split at hs
  · simp at hs
  · rename_i pc hk
    have hpc : s.payers = [pc] ∧ k = 0 := by
      have hfew := h.few
      match hp : s.payers with
      | [] => rw [hp] at hk; simp at hk
      | [p] =>
        rw [hp] at hk
        cases k with
        | zero => simp at hk; exact ⟨by rw [hk], rfl⟩
        | succ n => simp at hk
      | p :: q :: l => rw [hp] at hfew; simp at hfew
    obtain ⟨hpc, rfl⟩ := hpc
    split at hs
    · simp at hs
    · rename_i rg1 pc1 hstep
      cases hs
      have hsl := h.sumle
      simp only [regReceived, hpc, List.map_cons, List.map_nil, List.sum_cons,
        List.sum_nil, add_zero] at hsl
      obtain ⟨g0, g1, g2, g3, g4⟩ := paymentStep_ok hstep h.nonneg
        (fun v hv => h.store v (by rw [hpc, hv])) (by omega)
      obtain ⟨⟨f1, f2⟩, r1, r2⟩ := paymentStep_range hstep
      have hval : rg1.validRange ↔ s.registers.validRange := by
        unfold Register.validRange
        rw [f1, f2]
      have hset : s.payers.set 0 pc1 = [pc1] := by simp [hpc]
      refine ⟨h.cfg, ?_, ?_, ?_, ?_, ?_, h.bound, g0, ?_, ?_, ?_, ?_, ?_⟩
      · simp only [f1, f2]; exact h.fixed
      · simp only [hset, List.length_singleton, le_refl]
      · intro hv
        simp only [hset] at hv
        simp at hv
      · intro hg
        have ht := h.total hg
        simp only [regReceived, hpc, List.map_cons, List.map_nil, List.sum_cons,
          List.sum_nil, add_zero] at ht
        simp only [regReceived, hset, List.map_cons, List.map_nil, List.sum_cons,
          List.sum_nil, add_zero]
        omega
      · simp only [regReceived, hset, List.map_cons, List.map_nil, List.sum_cons,
          List.sum_nil, add_zero]
        omega
      · intro v hv
        simp only [hset, List.cons.injEq, and_true] at hv
        exact g1 v hv
      · intro hv
        simp only [hset, List.cons.injEq, and_true] at hv
        exact g2 hv
      · intro hcl
        simp only at hcl
        rw [g3] at hcl
        exact h.closed hcl
      · intro hv hp
        simp only [hset, List.cons.injEq, and_true] at hp
        exact r1 (hval.mp hv) hp
      · intro hv
        have hv0 : ¬ s.registers.validRange := fun x => hv (hval.mpr x)
        obtain ⟨i1, i2⟩ := h.invalid hv0
        have hidle : pc = WorkerPc.idle := by
          rcases i2 with i2 | i2 | i2 | i2
          · rw [hpc] at i2; simp at i2
          · rw [hpc] at i2; simpa using i2
          · rw [hpc] at i2
            simp only [List.cons.injEq, and_true] at i2
            subst i2
            simp [Register.paymentStep] at hstep
          · rw [hpc] at i2
            simp only [List.cons.injEq, and_true] at i2
            subst i2
            simp [Register.paymentStep] at hstep
        obtain ⟨t1, t2⟩ := r2 hv0 hidle
        refine ⟨by simp only; rw [t1]; exact i1, ?_⟩
        simp only [hset]
        rcases t2 with t2 | t2
        · exact Or.inr (Or.inr (Or.inl (by rw [t2])))
        · exact Or.inr (Or.inr (Or.inr (by rw [t2])))

theorem step_regInv {c : Config} {s s1 : Sys} {a : Action} (h : RegInv c s)
    (hN : c.Cars.Count < 9223372036854775808) (hs : step s a = some s1) : RegInv c s1 := by
  cases a with
  | pay k r e => exact registerWork_regInv h hN hs
  | arrive rd rs => exact genStep_regInv h (by simp) hs
  | sendRegister => exact genStep_regInv h (by simp) hs
  | closeRegister => exact genStep_regInv h (by simp) hs
  | closeStation name => exact genStep_regInv h (by simp) hs
  | refuel name r e => exact genStep_regInv h (by simp) hs

theorem run_regInv {c : Config} (hN : c.Cars.Count < 9223372036854775808) (as : List Action) :
    ∀ {s s1 : Sys}, RegInv c s → run s as = some s1 → RegInv c s1 := by
  induction as with
  | nil =>
    intro s s1 h hr
    simp only [run, Option.some.injEq] at hr
    exact hr ▸ h
  | cons a as ih =>
    intro s s1 h hr
    simp only [run] at hr
    split at hr
    · simp at hr
    · rename_i s2 hstep
      exact ih (step_regInv h hN hstep) hr

/-- The register invariant holds after start-up when at most one register
server is configured. -/
theorem start_regInv {c : Config} {s : Sys} (h1 : c.Registers.Count ≤ 1)
    (h : start c = some s) : RegInv c s := by
  obtain ⟨hn, hcfg, hgen, _, hpay, _, _, _⟩ := start_spec h
  obtain ⟨r1, r2, r3, r4, r5⟩ := start_register h
  have hcases : s.payers = [] ∨ s.payers = [WorkerPc.idle] := by
    rcases Nat.lt_or_ge c.Registers.Count.toNat 1 with hlt | hge
    · left
      have : c.Registers.Count.toNat = 0 := by omega
      rw [hpay, this]; rfl
    · right
      have : c.Registers.Count.toNat = 1 := by omega
      rw [hpay, this]; rfl
  have hinfl : (s.payers.map inflight).sum = 0 := by
    rcases hcases with hp | hp <;> simp [hp, inflight]
  refine ⟨hcfg, ⟨r4, r5⟩, ?_, fun _ => r1, ?_, ?_, ?_, by omega, ?_, ?_, ?_, ?_, ?_⟩
  · rcases hcases with hp | hp <;> simp [hp]
  · intro _
    simp [regReceived, regSubmitted, hgen, r1, r2, hinfl]
  · simp only [regReceived, r1, r2, hinfl]
    simpa using hn
  · simp only [hgen, submitted, Nat.cast_zero]; exact hn
  · intro v hv
    rcases hcases with hp | hp <;> rw [hp] at hv <;> simp at hv
  · intro hv
    rcases hcases with hp | hp <;> rw [hp] at hv <;> simp at hv
  · intro hv
    rw [r3] at hv
    simp at hv
  · intro _ hv
    rcases hcases with hp | hp <;> rw [hp] at hv <;> simp at hv
  · intro _
    refine ⟨r1, ?_⟩
    rcases hcases with hp | hp
    · exact Or.inl hp
    · exact Or.inr (Or.inl hp)

theorem step_payers_length {s s1 : Sys} {a : Action} (hs : step s a = some s1) :
    s1.payers.length = s.payers.length := by
  cases a with
  | arrive rd rs =>
    simp only [step, genArrive, genCrash] at hs
    repeat' split at hs
    all_goals first | (cases hs; rfl) | simp at hs
  | sendRegister =>
    simp only [step, genSendRegister, genCrash] at hs
    repeat' split at hs
    all_goals first | (cases hs; rfl) | simp at hs
  | closeRegister =>
    simp only [step, genCloseRegister, genCrash] at hs
    repeat' split at hs
    all_goals first | (cases hs; rfl) | simp at hs
  | closeStation name =>
    simp only [step, genCloseStation, genCrash] at hs
    repeat' split at hs
    all_goals first | (cases hs; rfl) | simp at hs
  | refuel name r e =>
    simp only [step, stationWork] at hs
    repeat' split at hs
    all_goals first | (cases hs; rfl) | simp at hs
  | pay k r e =>
    simp only [step, registerWork] at hs
    repeat' split at hs
    all_goals first | (cases hs; simp) | simp at hs

theorem run_payers_length (as : List Action) :
    ∀ {s s1 : Sys}, run s as = some s1 → s1.payers.length = s.payers.length := by
  induction as with
  | nil =>
    intro s s1 hr
    simp only [run, Option.some.injEq] at hr
    rw [hr]
  | cons a as ih =>
    intro s s1 hr
    simp only [run] at hr
    split at hr
    · simp at hr
    · rename_i s2 hstep
      rw [ih hr, step_payers_length hstep]

/-- With `registers.count = 1`, every completed run ends with the register
counter equal to the arrival count. -/
theorem registerTotal_run {c : Config} (hN : c.Cars.Count < 9223372036854775808)
    (h1 : c.Registers.Count = 1) {s0 s : Sys} {as : List Action} (h0 : start c = some s0)
    (hr : run s0 as = some s) (hc : completed s) : s.registers.totalCars = c.Cars.Count := by
  have hinv : RegInv c s := run_regInv hN as (start_regInv (by omega) h0) hr
  have hlen : s.payers.length = 1 := by
    rw [run_payers_length as hr, (start_spec h0).2.2.2.2.1, h1]
    rfl
  obtain ⟨_, hgen, _, _, hpay⟩ := hc
  obtain ⟨pc, hpc⟩ := List.length_eq_one.mp hlen
  have hex : pc = WorkerPc.exited := hpay pc (by rw [hpc]; simp)
  subst hex
  have ht := hinv.total (by rw [hgen]; simp)
  have hl := (hinv.gone hpc).1
  simp only [regReceived, hpc, hgen, regSubmitted, hl, List.map_cons, List.map_nil,
    List.sum_cons, List.sum_nil, inflight] at ht
  simpa using ht

/-! ## Counts as a function of the routing -/

theorem lookupStation_name {name : String} {l : List (Station × WorkerPc)}
    {x : Station × WorkerPc} (h : lookupStation name l = some x) : x.1.name = name := by
  have := List.find?_some h
  simpa using this

theorem lookupStation_setStation {name : String} {l : List (Station × WorkerPc)}
    {x y : Station × WorkerPc} (hl : lookupStation name l = some x) (hy : y.1.name = name)
    (n : String) :
    lookupStation n (setStation name y l) = if n = name then some y else lookupStation n l := by
  induction l with
  | nil => simp [lookupStation] at hl
  | cons z l ih =>
    unfold lookupStation at hl ih ⊢
    rw [List.find?_cons] at hl
    by_cases hz : (z.1.name == name) = true
    · have hzn : z.1.name = name := by simpa using hz
      simp only [setStation, hz, if_true, List.find?_cons]
      by_cases hn : n = name
      · subst hn
        simp [hy]
      · have h1 : (y.1.name == n) = false := by
          simp only [beq_eq_false_iff_ne, ne_eq, hy]
          exact fun h => hn h.symm
        have h2 : (z.1.name == n) = false := by
          simp only [beq_eq_false_iff_ne, ne_eq, hzn]
          exact fun h => hn h.symm
        simp [h1, h2, hn]
    · simp only [hz] at hl
      have ih1 := ih hl
      have hz0 : (z.1.name == name) = false := by simpa using hz
      simp only [setStation, hz0, Bool.false_eq_true, if_false, List.find?_cons]
      by_cases hn : n = name
      · subst hn
        simp only [hz0]
        simpa using ih1
      · by_cases hzn : (z.1.name == n) = true
        · simp [hzn, hn]
        · have hzn0 : (z.1.name == n) = false := by simpa using hzn
          simp only [hzn0]
          exact ih1

theorem fixedPart_setStation {name : String} {l : List (Station × WorkerPc)}
    {x y : Station × WorkerPc} (hl : lookupStation name l = some x)
    (hy : fixedPart y = fixedPart x) :
    (setStation name y l).map fixedPart = l.map fixedPart := by
  induction l with
  | nil => simp [lookupStation] at hl
  | cons z l ih =>
    unfold lookupStation at hl ih
    rw [List.find?_cons] at hl
    by_cases hz : (z.1.name == name) = true
    · simp only [hz] at hl
      have hx : z = x := by simpa using hl
      subst hx
      simp [setStation, hz, hy]
    · simp only [hz] at hl
      have hz0 : (z.1.name == name) = false := by simpa using hz
      simp [setStation, hz0, ih hl]

theorem lookupStation_fixedPart {l1 l2 : List (Station × WorkerPc)}
    (h : l1.map fixedPart = l2.map fixedPart) (name : String) :
    (lookupStation name l1).map fixedPart = (lookupStation name l2).map fixedPart := by
  induction l1 generalizing l2 with
  | nil =>
    cases l2 with
    | nil => rfl
    | cons z l => simp at h
  | cons a l1 ih =>
    cases l2 with
    | nil => simp at h
    | cons b l2 =>
      simp only [List.map_cons, List.cons.injEq] at h
      obtain ⟨hab, hl⟩ := h
      have hname : a.1.name = b.1.name := congrArg Prod.fst hab
      unfold lookupStation at ih ⊢
      simp only [List.find?_cons, hname]
      by_cases hb : (b.1.name == name) = true
      · simp [hb, hab]
      · have hb0 : (b.1.name == name) = false := by simpa using hb
        simp only [hb0]
        exact ih hl

theorem sum_set (f : WorkerPc → Int) {l : List WorkerPc} {k : Nat} {x : WorkerPc}
    (y : WorkerPc) (h : l[k]? = some x) :
    ((l.set k y).map f).sum = (l.map f).sum - f x + f y := by
  induction l generalizing k with
  | nil => simp at h
  | cons z l ih =>
    cases k with
    | zero =>
      simp only [List.getElem?_cons_zero, Option.some.injEq] at h
      subst h
      simp only [List.set_cons_zero, List.map_cons, List.sum_cons]
      omega
    | succ n =>
      simp only [List.getElem?_cons_succ] at h
      have := ih h
      simp only [List.set_cons_succ, List.map_cons, List.sum_cons]
      omega

theorem live_nonneg (pc : WorkerPc) : 0 ≤ live pc := by
  unfold live
  split <;> simp

theorem live_eq_zero_iff (pc : WorkerPc) :
    live pc = 0 ↔ (pc = WorkerPc.exited ∨ pc = WorkerPc.crashed) := by
  unfold live WorkerPc.finished
  cases pc <;> simp

theorem carRefuelingStep_live {st st1 : Station} {pc pc1 : WorkerPc} {r : Nat} {e : Int}
    (h : st.carRefuelingStep pc r e = some (st1, pc1)) : live pc = 1 := by
  cases pc <;> simp [Station.carRefuelingStep] at h <;> simp [live, WorkerPc.finished]

theorem paymentStep_live {rg rg1 : Register} {pc pc1 : WorkerPc} {r : Nat} {e : Int}
    (h : rg.paymentStep pc r e = some (rg1, pc1)) : live pc = 1 := by
  cases pc <;> simp [Register.paymentStep] at h <;> simp [live, WorkerPc.finished]

theorem sum_live_nonneg (l : List WorkerPc) : 0 ≤ (l.map live).sum :=
  List.sum_nonneg (by
    intro a ha
    obtain ⟨w, _, rfl⟩ := List.mem_map.mp ha
    exact live_nonneg w)

theorem sum_live_stations_nonneg (l : List (Station × WorkerPc)) :
    0 ≤ (l.map (fun x => live x.2)).sum :=
  List.sum_nonneg (by
    intro a ha
    obtain ⟨w, _, rfl⟩ := List.mem_map.mp ha
    exact live_nonneg w.2)

theorem StationD.reopen {c : Config} {h h1 : List String} {g g1 : GenPc} {name : String}
    {x : Station × WorkerPc} (hd : StationD c h g name x) (hg : g ≠ GenPc.closing)
    (hc : g1 ≠ GenPc.crashed → g ≠ GenPc.crashed ∧ h1.count name = h.count name) :
    StationD c h1 g1 name x := by
  obtain ⟨hok, hle, heq, hv, hi⟩ := hd
  refine ⟨hok.of_open hg, hle, ?_, hv, hi⟩
  intro hg1
  obtain ⟨hg0, hcount⟩ := hc hg1
  rw [hcount]
  exact heq hg0

/-- Replacing one station keeps the routing invariant. -/
theorem InvD.replace {c : Config} {s0 s s1 : Sys} {h h1 : List String} (hi : InvD c s0 h s)
    {name : String} {x y : Station × WorkerPc} (hl : lookupStation name s.stations = some x)
    (hcfg : s1.config = s.config) (hst : s1.stations = setStation name y s.stations)
    (hp : s1.payers = s.payers) (hfix : fixedPart y = fixedPart x)
    (hy : StationD c h1 s1.gen name y)
    (hmono : ∀ n z, n ≠ name → lookupStation n s.stations = some z → StationD c h1 s1.gen n z)
    (hhist : genHistory c h1 s1.gen) (hb : submitted c s1.gen ≤ c.Cars.Count)
    (hwg : (s1.wg : Int) = s.wg - live x.2 + live y.2) : InvD c s0 h1 s1 := by
  have hyn : y.1.name = name := by
    have h1 := congrArg Prod.fst hfix
    simp only [fixedPart] at h1
    rw [h1]
    exact lookupStation_name hl
  refine ⟨hcfg.trans hi.cfg, ?_, hhist, hb, ?_, ?_⟩
  · rw [hst, fixedPart_setStation hl hfix]
    exact hi.fixed
  · intro n z hz
    rw [hst, lookupStation_setStation hl hyn] at hz
    by_cases hn : n = name
    · rw [if_pos hn] at hz
      simp only [Option.some.injEq] at hz
      subst hz
      subst hn
      exact hy
    · rw [if_neg hn] at hz
      exact hmono n z hn hz
  · rw [hst, sum_setStation (fun x => live x.2) y hl, hp, hwg, hi.wgc]
    omega

/-- A step that leaves the stations alone keeps the routing invariant. -/
theorem InvD.same {c : Config} {s0 s s1 : Sys} {h h1 : List String} (hi : InvD c s0 h s)
    (hcfg : s1.config = s.config) (hst : s1.stations = s.stations)
    (hmono : ∀ n z, lookupStation n s.stations = some z → StationD c h1 s1.gen n z)
    (hhist : genHistory c h1 s1.gen) (hb : submitted c s1.gen ≤ c.Cars.Count)
    (hwg : (s1.wg : Int) = (s.stations.map (fun x => live x.2)).sum + (s1.payers.map live).sum) :
    InvD c s0 h1 s1 := by
  refine ⟨hcfg.trans hi.cfg, ?_, hhist, hb, ?_, ?_⟩
  · rw [hst]; exact hi.fixed
  · rw [hst]; exact hmono
  · rw [hst]; exact hwg

/-- A panic of the generator before it starts closing keeps the routing
invariant, whatever is added to the history. -/
theorem InvD.crashStep {c : Config} {s0 s : Sys} {h : List String} (h1 : List String)
    (hi : InvD c s0 h s) (hg : s.gen ≠ GenPc.closing) : InvD c s0 h1 (genCrash s) :=
  hi.same rfl rfl
    (fun n z hz => (hi.st n z hz).reopen hg (fun hne => absurd rfl hne))
    trivial (le_refl _) hi.wgc

theorem genArrive_invD {c : Config} {s0 s s1 : Sys} {h : List String} {rd rs : Nat}
    (hi : InvD c s0 h s) (hs : genArrive s rd rs = some s1) :
    InvD c s0 (h ++ (chooseRandomStation rs).toList) s1 := by
  unfold genArrive at hs
  split at hs
  · rename_i i hgen
    have hne : s.gen ≠ GenPc.closing := by rw [hgen]; simp
    have hnc : s.gen ≠ GenPc.crashed := by rw [hgen]; simp
    split at hs
    · rename_i hlt
      rw [hi.cfg] at hlt
      split at hs
      · cases hs; exact hi.crashStep _ hne
      · split at hs
        · cases hs; exact hi.crashStep _ hne
        · rename_i name hname
          split at hs
          · cases hs; exact hi.crashStep _ hne
          · rename_i station pc hl
            split at hs
            · simp at hs
            · cases hs; exact hi.crashStep _ hne
            · rename_i q hsend
              cases hs
              obtain ⟨hok, hle, heq, hv, hiv⟩ := hi.st _ _ hl
              have hopen : ¬ station.queue.closed = true := fun hx1 => hne (hok.2.2.2 hx1)
              have hlen : h.length = i := by
                have := hi.hist
                rw [hgen] at this
                exact this
              unfold Chan.send at hsend
              rw [if_neg hopen] at hsend
              split at hsend
              · simp only [Outcome.next.injEq] at hsend
                subst hsend
                have heq0 := heq hnc
                have hcnt : (h.count name : Int) ≤ h.length := by
                  exact_mod_cast List.count_le_length name h
                simp only [hname, Option.toList_some]
                refine hi.replace hl rfl rfl rfl rfl ?_ ?_ ?_ ?_ ?_
                · refine ⟨⟨hok.1, hok.2.1, fun he => absurd (hok.2.2.1 he).2 hopen,
                    fun hcl => absurd hcl hopen⟩, ?_, ?_, hv, hiv⟩
                  · simp only [received] at heq0 ⊢
                    push_cast
                    omega
                  · intro _
                    simp only [received] at heq0 ⊢
                    rw [List.count_append]
                    simp only [List.count_singleton_self]
                    push_cast
                    omega
                · intro n z hn hz
                  refine (hi.st n z hz).reopen hne (fun _ => ⟨hnc, ?_⟩)
                  rw [List.count_append]
                  have : List.count n [name] = 0 := by
                    rw [List.count_singleton]
                    simp only [beq_iff_eq, ite_eq_right_iff]
                    intro hx
                    exact absurd hx.symm hn
                  omega
                · simp only [genHistory, List.length_append, List.length_singleton, hlen]
                · simp only [submitted]
                  omega
                · simp
              · simp at hsend
    · simp at hs
  · simp at hs

theorem genSendRegister_invD {c : Config} {s0 s s1 : Sys} {h : List String}
    (hi : InvD c s0 h s) (hs : genSendRegister s = some s1) : InvD c s0 h s1 := by
  unfold genSendRegister at hs
  split at hs
  · rename_i i hgen
    have hne : s.gen ≠ GenPc.closing := by rw [hgen]; simp
    have hnc : s.gen ≠ GenPc.crashed := by rw [hgen]; simp
    have hh := hi.hist
    have hb := hi.bound
    rw [hgen] at hh hb
    simp only [genHistory, submitted] at hh hb
    split at hs
    · simp at hs
    · cases hs; exact hi.crashStep _ hne
    · cases hs
      refine hi.same rfl rfl
        (fun n z hz => (hi.st n z hz).reopen hne (fun _ => ⟨hnc, rfl⟩)) ?_ ?_ hi.wgc
      · simp only [genHistory]; exact hh
      · simp only [submitted]; push_cast; omega
  · simp at hs

theorem genCloseRegister_invD {c : Config} {s0 s s1 : Sys} {h : List String}
    (hi : InvD c s0 h s) (hs : genCloseRegister s = some s1) : InvD c s0 h s1 := by
  unfold genCloseRegister at hs
  split at hs
  · rename_i i hgen
    have hne : s.gen ≠ GenPc.closing := by rw [hgen]; simp
    have hnc : s.gen ≠ GenPc.crashed := by rw [hgen]; simp
    have hh := hi.hist
    have hb := hi.bound
    rw [hgen] at hh hb
    simp only [genHistory, submitted] at hh hb
    split at hs
    · simp at hs
    · rename_i hge
      rw [hi.cfg] at hge
      split at hs
      · simp at hs
      · cases hs; exact hi.crashStep _ hne
      · cases hs
        refine hi.same rfl rfl
          (fun n z hz => (hi.st n z hz).reopen hne (fun _ => ⟨hnc, rfl⟩)) ?_ ?_ hi.wgc
        · simp only [genHistory]; omega
        · simp only [submitted]; omega
  · simp at hs

theorem genCloseStation_invD {c : Config} {s0 s s1 : Sys} {h : List String} {name : String}
    (hi : InvD c s0 h s) (hs : genCloseStation s name = some s1) : InvD c s0 h s1 := by
  unfold genCloseStation at hs
  split at hs
  · rename_i hgen
    split at hs
    · simp at hs
    · rename_i station pc hl
      split at hs
      · simp at hs
      · rename_i hopen
        unfold Chan.close at hs
        rw [if_neg hopen] at hs
        simp only [Option.some.injEq] at hs
        subst hs
        obtain ⟨hok, hle, heq, hv, hiv⟩ := hi.st _ _ hl
        refine hi.replace hl rfl rfl rfl rfl ?_ (fun n z _ hz => hi.st n z hz) hi.hist
          hi.bound (by simp)
        exact ⟨⟨hok.1, hok.2.1, fun he => ⟨(hok.2.2.1 he).1, rfl⟩, fun _ => hgen⟩,
          hle, heq, hv, hiv⟩
  · simp at hs

theorem stationWork_invD {c : Config} {s0 s s1 : Sys} {h : List String} {name : String}
    {r : Nat} {e : Int} (hi : InvD c s0 h s) (hN : c.Cars.Count < 9223372036854775808)
    (hs : stationWork s name r e = some s1) : InvD c s0 h s1 := by
  unfold stationWork at hs
  split at hs
  · simp at hs
  · rename_i station pc hl
    split at hs
    · simp at hs
    · rename_i station1 pc1 hstep
      cases hs
      obtain ⟨hok, hle, heq, hv, hiv⟩ := hi.st _ _ hl
      obtain ⟨hok1, hrec⟩ := carRefuelingStep_ok hstep hok (by omega)
      obtain ⟨hfix, r1, r2⟩ := carRefuelingStep_range hstep
      have hlive := carRefuelingStep_live hstep
      have hval : station1.validRange ↔ station.validRange := by
        have h1 := congrArg (fun t => t.2.1) hfix
        have h2 := congrArg (fun t => t.2.2) hfix
        simp only [fixedPart] at h1 h2
        unfold Station.validRange
        rw [h1, h2]
      have hmem := lookupStation_mem hl
      have hge : live pc ≤ (s.stations.map (fun x => live x.2)).sum :=
        le_sum_of_mem (fun x => live x.2) (fun z _ => live_nonneg z.2) hmem
      have hpay := sum_live_nonneg s.payers
      have hwg := hi.wgc
      refine hi.replace hl rfl rfl rfl hfix ?_ (fun n z _ hz => hi.st n z hz) hi.hist
        hi.bound ?_
      · refine ⟨hok1, by rw [hrec]; exact hle, fun hg => by rw [hrec]; exact heq hg, ?_, ?_⟩
        · intro hv1
          exact r1 (hval.mp hv1)
        · intro hv1
          have hv0 : ¬ station.validRange := fun x => hv1 (hval.mpr x)
          obtain ⟨i1, i2⟩ := hiv hv0
          have hidle : pc = WorkerPc.idle := by
            rcases i2 with i2 | i2 | i2
            · exact i2
            · simp only at i2; subst i2; simp [Station.carRefuelingStep] at hstep
            · simp only at i2; subst i2; simp [Station.carRefuelingStep] at hstep
          obtain ⟨t1, t2⟩ := r2 hv0 hidle
          refine ⟨by simp only; rw [t1]; exact i1, ?_⟩
          rcases t2 with t2 | t2
          · exact Or.inr (Or.inl t2)
          · exact Or.inr (Or.inr t2)
      · simp only
        by_cases hf : pc1.finished = true
        · have hl1 : live pc1 = 0 := by simp [live, hf]
          simp only [hf, if_true, hl1]
          omega
        · have hl1 : live pc1 = 1 := by simp [live, hf]
          simp only [hf, hl1]
          simp only [Bool.false_eq_true, if_false]
          omega

theorem registerWork_invD {c : Config} {s0 s s1 : Sys} {h : List String} {k r : Nat}
    {e : Int} (hi : InvD c s0 h s) (hs : registerWork s k r e = some s1) :
    InvD c s0 h s1 := by
  unfold registerWork at hs
  split at hs
  · simp at hs
  · rename_i pc hk
    split at hs
    · simp at hs
    · rename_i rg1 pc1 hstep
      cases hs
      have hlive := paymentStep_live hstep
      have hsum := sum_set live pc1 hk
      have hst := sum_live_stations_nonneg s.stations
      have hwg := hi.wgc
      have hge : live pc ≤ (s.payers.map live).sum := by
        have hmem : pc ∈ s.payers := List.getElem?_mem hk
        have hnn : ∀ l : List WorkerPc, pc ∈ l → live pc ≤ (l.map live).sum := by
          intro l
          induction l with
          | nil => intro hx; simp at hx
          | cons z l ih =>
            intro hx
            have h1 := live_nonneg z
            have h2 := sum_live_nonneg l
            simp only [List.map_cons, List.sum_cons]
            rcases List.mem_cons.mp hx with h3 | h3
            · subst h3; omega
            · have := ih h3; omega
        exact hnn _ hmem
      refine hi.same rfl rfl (fun n z hz => hi.st n z hz) hi.hist hi.bound ?_
      simp only
      rw [hsum]
      by_cases hf : pc1.finished = true
      · have hl1 : live pc1 = 0 := by simp [live, hf]
        simp only [hf, if_true, hl1]
        omega
      · have hl1 : live pc1 = 1 := by simp [live, hf]
        simp only [hf, hl1]
        simp only [Bool.false_eq_true, if_false]
        omega

theorem routing_cons (a : Action) (as : List Action) :
    routing (a :: as) = routing [a] ++ routing as := by
  cases a <;> simp [routing]

/-- Every step of the program keeps the routing invariant, the history
growing by the station the step chose, if any. -/
theorem step_invD {c : Config} {s0 s s1 : Sys} {h : List String} {a : Action}
    (hi : InvD c s0 h s) (hN : c.Cars.Count < 9223372036854775808)
    (hs : step s a = some s1) : InvD c s0 (h ++ routing [a]) s1 := by
  cases a with
  | arrive rd rs =>
    have := genArrive_invD hi hs
    simpa [routing] using this
  | sendRegister => simpa [routing] using genSendRegister_invD hi hs
  | closeRegister => simpa [routing] using genCloseRegister_invD hi hs
  | closeStation name => simpa [routing] using genCloseStation_invD hi hs
  | refuel name r e => simpa [routing] using stationWork_invD hi hN hs
  | pay k r e => simpa [routing] using registerWork_invD hi hs

theorem run_invD {c : Config} {s0 : Sys} (hN : c.Cars.Count < 9223372036854775808)
    (as : List Action) :
    ∀ {s s1 : Sys} {h : List String}, InvD c s0 h s → run s as = some s1 →
      InvD c s0 (h ++ routing as) s1 := by
  induction as with
  | nil =>
    intro s s1 h hi hr
    simp only [run, Option.some.injEq] at hr
    subst hr
    simpa [routing] using hi
  | cons a as ih =>
    intro s s1 h hi hr
    simp only [run] at hr
    split at hr
    · simp at hr
    · rename_i s2 hstep
      have := ih (step_invD hi hN hstep) hr
      rw [routing_cons, ← List.append_assoc]
      exact this

theorem sum_live_replicate (n : Nat) :
    ((List.replicate n WorkerPc.idle).map live).sum = n := by
  induction n with
  | zero => simp
  | succ n ih =>
    simp only [List.replicate_succ, List.map_cons, List.sum_cons, ih]
    simp only [live, WorkerPc.finished]
    push_cast
    simp
    omega

theorem sum_live_idle (l : List (Station × WorkerPc)) (h : ∀ x ∈ l, x.2 = WorkerPc.idle) :
    (l.map (fun x => live x.2)).sum = l.length := by
  induction l with
  | nil => simp
  | cons z l ih =>
    have hz := h z (List.mem_cons_self _ _)
    have := ih (fun x hx => h x (List.mem_cons_of_mem _ hx))
    simp only [List.map_cons, List.sum_cons, List.length_cons, this, hz]
    simp only [live, WorkerPc.finished]
    push_cast
    simp
    omega

/-- The routing invariant holds after start-up, with no routing choice made. -/
theorem start_invD {c : Config} {s : Sys} (h : start c = some s) : InvD c s [] s := by
  obtain ⟨hn, hcfg, hgen, _, hpay, hwg, hnames, hall⟩ := start_spec h
  have hlen : s.stations.length = c.Stations.length := by
    have := congrArg List.length hnames
    simpa [Config.stationNames] using this
  refine ⟨hcfg, rfl, ?_, ?_, ?_, ?_⟩
  · rw [hgen]; rfl
  · rw [hgen]
    simp only [submitted, Nat.cast_zero]
    exact hn
  · intro name x hx
    have hmem := lookupStation_mem hx
    obtain ⟨h1, h2, h3, h4⟩ := hall x hmem
    have hrec : received x = 0 := by simp [received, h1, h2, h4, inflight]
    refine ⟨start_stationOk h x hmem, by rw [hrec]; exact hn, ?_, ?_, ?_⟩
    · intro _
      rw [hrec]
      simp
    · intro _ hv
      rw [h4] at hv
      simp at hv
    · intro _
      exact ⟨h1, Or.inl h4⟩
  · rw [hwg, hpay, sum_live_replicate, sum_live_idle _ (fun x hx => (hall x hx).2.2.2), hlen]
    push_cast
    rfl

/-- At the readout every worker is gone. -/
theorem readout_finished {c : Config} {s0 s : Sys} {h : List String} (hi : InvD c s0 h s)
    (hr : readout s) :
    (∀ x ∈ s.stations, x.2 = WorkerPc.exited ∨ x.2 = WorkerPc.crashed) ∧
    (∀ pc ∈ s.payers, pc = WorkerPc.exited ∨ pc = WorkerPc.crashed) := by
  have hwg := hi.wgc
  unfold readout at hr
  rw [hr] at hwg
  have h1 := sum_live_stations_nonneg s.stations
  have h2 := sum_live_nonneg s.payers
  constructor
  · intro x hx
    have hle := le_sum_of_mem (fun x => live x.2) (fun z _ => live_nonneg z.2) hx
    have h0 := live_nonneg x.2
    exact (live_eq_zero_iff x.2).mp (by simp only at hle; omega)
  · intro pc hpc
    have hle : live pc ≤ (s.payers.map live).sum := by
      have hnn : ∀ l : List WorkerPc, pc ∈ l → live pc ≤ (l.map live).sum := by
        intro l
        induction l with
        | nil => intro hx; simp at hx
        | cons z l ih =>
          intro hx
          have h1 := live_nonneg z
          have h2 := sum_live_nonneg l
          simp only [List.map_cons, List.sum_cons]
          rcases List.mem_cons.mp hx with h3 | h3
          · subst h3; omega
          · have := ih h3; omega
      exact hnn _ hpc
    have h0 := live_nonneg pc
    exact (live_eq_zero_iff pc).mp (by omega)

/-- At the readout a station with a proper serve-time range has counted every
token routed to it, and a station without one has counted nothing. -/
theorem stationCars_readout {c : Config} {s0 s : Sys} {h : List String} (hi : InvD c s0 h s)
    (hr : readout s) {name : String} {x : Station × WorkerPc}
    (hx : lookupStation name s.stations = some x) :
    (x.1.validRange → x.1.totalCars = h.count name) ∧
    (¬ x.1.validRange → x.1.totalCars = 0) := by
  obtain ⟨hok, _, heq, hv, hiv⟩ := hi.st name x hx
  have hfin := (readout_finished hi hr).1 x (lookupStation_mem hx)
  constructor
  · intro hval
    have hex : x.2 = WorkerPc.exited := by
      rcases hfin with hf | hf
      · exact hf
      · exact absurd hf (hv hval)
    obtain ⟨hlen, hcl⟩ := hok.2.2.1 hex
    have hgen := hok.2.2.2 hcl
    have := heq (by rw [hgen]; simp)
    simp only [received, hex, hlen, inflight] at this
    simpa using this
  · intro hval
    exact (hiv hval).1

/-- At the readout a register with at most one worker has counted every
arrival if it has a worker and a proper handle-time range, and nothing
otherwise. -/
theorem registerCars_readout {c : Config} {s0 s : Sys} {h : List String}
    (hi : InvD c s0 h s) (hg : RegInv c s) (hr : readout s) :
    (s.registers.validRange → s.payers ≠ [] → s.registers.totalCars = c.Cars.Count) ∧
    (¬ s.registers.validRange → s.registers.totalCars = 0) ∧
    (s.payers = [] → s.registers.totalCars = 0) := by
  refine ⟨?_, fun hv => (hg.invalid hv).1, hg.idle⟩
  intro hval hne
  have hfew := hg.few
  obtain ⟨pc, hpc⟩ : ∃ pc, s.payers = [pc] := by
    match hp : s.payers with
    | [] => exact absurd hp hne
    | [p] => exact ⟨p, rfl⟩
    | p :: q :: l => rw [hp] at hfew; simp at hfew
  have hfin := (readout_finished hi hr).2 pc (by rw [hpc]; simp)
  have hex : pc = WorkerPc.exited := by
    rcases hfin with hf | hf
    · exact hf
    · subst hf
      exact absurd hpc (hg.valid hval)
  subst hex
  obtain ⟨hlen, hcl⟩ := hg.gone hpc
  have hgen := hg.closed hcl
  have := hg.total (by rw [hgen]; simp)
  simp only [regReceived, hpc, hgen, regSubmitted, hlen, List.map_cons, List.map_nil,
    List.sum_cons, List.sum_nil, inflight] at this
  simpa using this

/-! ## One token served without interference -/

/-- Serving one token by the memory-access steps, with no other goroutine in
between, has the effect of `Station.record`. -/
theorem Station.steps_serving (st : Station) (d e : Int) (r : Nat) :
    ∃ n, Station.steps r e n (st, WorkerPc.serving d) =
      some (st.record d e, WorkerPc.idle) := by
  by_cases h : e > st.maxQueueTime
  · exact ⟨6, by simp [Station.steps, Station.carRefuelingStep, Station.record, h]⟩
  · exact ⟨5, by simp [Station.steps, Station.carRefuelingStep, Station.record, h]⟩

/-- Serving one token by the memory-access steps, with no other goroutine in
between, has the effect of `Register.record`. -/
theorem Register.steps_paying (rg : Register) (d e : Int) (r : Nat) :
    ∃ n, Register.steps r e n (rg, WorkerPc.serving d) =
      some (rg.record d e, WorkerPc.idle) := by
  by_cases h : e > rg.maxQueueTime
  · exact ⟨6, by simp [Register.steps, Register.paymentStep, Register.record, h]⟩
  · exact ⟨5, by simp [Register.steps, Register.paymentStep, Register.record, h]⟩

/-! ## Sampling -/

theorem Int63n_eq_some {n : Int} {r : Nat} {k : Int} (h : Int63n n r = some k) :
    0 < n ∧ 0 ≤ k ∧ k < n := by
  unfold Int63n at h
  split at h
  · simp at h
  · rename_i hn
    simp only [Option.some.injEq] at h
    subst h
    have hpos : 0 < n := by omega
    exact ⟨hpos, Int.emod_nonneg _ (by omega), Int.emod_lt_of_pos _ hpos⟩

theorem sampleDuration_eq_none_of_le {min max : Int} (h : wrap64 (max - min) ≤ 0) (r : Nat) :
    sampleDuration min max r = none := by
  simp [sampleDuration, Int63n, h]

/-- With a representable positive width the sample is `min + k` for a `k`
below the width, without wrap-around. -/
theorem sampleDuration_eq_some_iff {min max : Int} (hmin : inInt64 min) (hmax : inInt64 max)
    (hlt : min < max) (hw : max - min < 9223372036854775808) (r : Nat) (d : Int) :
    sampleDuration min max r = some d ↔ d = min + (r : Int) % (max - min) := by
  have hwrap : wrap64 (max - min) = max - min := wrap64_of_inInt64 ⟨by omega, hw⟩
  have hpos : 0 < max - min := by omega
  have h1 := Int.emod_nonneg (r : Int) (show max - min ≠ 0 by omega)
  have h2 := Int.emod_lt_of_pos (r : Int) hpos
  have hwrap2 : wrap64 (min + (r : Int) % (max - min)) = min + (r : Int) % (max - min) := by
    unfold inInt64 at hmin hmax
    exact wrap64_of_inInt64 ⟨by omega, by omega⟩
  simp only [sampleDuration, Int63n, hwrap, if_neg (not_le.mpr hpos), hwrap2, Option.some.injEq]
  exact eq_comm

/-! ## Sequential worker loop -/

theorem wrap64_add_wrap64 (a b : Int) : wrap64 (wrap64 a + b) = wrap64 (a + b) := by
  unfold wrap64
  omega

theorem wrap64_inInt64 (x : Int) : inInt64 (wrap64 x) := by
  unfold inInt64 wrap64
  omega

theorem wrap64_le_of_ge {x : Int} (h : -9223372036854775808 ≤ x) : wrap64 x ≤ x := by
  unfold wrap64
  omega

theorem Station.record_totalTime (st : Station) (d e : Int) :
    (st.record d e).totalTime = wrap64 (st.totalTime + d) := by
  by_cases h : e > st.maxQueueTime <;> simp [Station.record, h]

theorem Station.record_totalCars (st : Station) (d e : Int) :
    (st.record d e).totalCars = wrap64 (st.totalCars + 1) := by
  by_cases h : e > st.maxQueueTime <;> simp [Station.record, h]

theorem Station.record_maxQueueTime (st : Station) (d e : Int) :
    (st.record d e).maxQueueTime = if e > st.maxQueueTime then e else st.maxQueueTime := by
  by_cases h : e > st.maxQueueTime <;> simp [Station.record, h]

theorem Register.record_time (rg : Register) (d e : Int) :
    (rg.record d e).totalTime = wrap64 (rg.totalTime + d) := by
  by_cases h : e > rg.maxQueueTime <;> simp [Register.record, h]

theorem Register.record_cars (rg : Register) (d e : Int) :
    (rg.record d e).totalCars = wrap64 (rg.totalCars + 1) := by
  by_cases h : e > rg.maxQueueTime <;> simp [Register.record, h]

theorem Register.record_max (rg : Register) (d e : Int) :
    (rg.record d e).maxQueueTime = if e > rg.maxQueueTime then e else rg.maxQueueTime := by
  by_cases h : e > rg.maxQueueTime <;> simp [Register.record, h]

/-- Counters after a worker has served `samples` one after another. -/
theorem Station.carRefueling_spec (samples : List (Int × Int)) :
    ∀ st : Station, inInt64 st.totalTime → inInt64 st.totalCars →
      (st.carRefueling samples).totalTime = wrap64 (st.totalTime + (samples.map Prod.fst).sum) ∧
      (st.carRefueling samples).totalCars = wrap64 (st.totalCars + samples.length) ∧
      st.maxQueueTime ≤ (st.carRefueling samples).maxQueueTime ∧
      ∀ p ∈ samples, p.2 ≤ (st.carRefueling samples).maxQueueTime := by
  induction samples with
  | nil =>
    intro st ht hc
    simp [Station.carRefueling, wrap64_of_inInt64 ht, wrap64_of_inInt64 hc]
  | cons p l ih =>
    intro st _ _
    obtain ⟨h1, h2, h3, h4⟩ := ih (st.record p.1 p.2)
      (by rw [Station.record_totalTime]; exact wrap64_inInt64 _)
      (by rw [Station.record_totalCars]; exact wrap64_inInt64 _)
    simp only [Station.carRefueling, List.foldl_cons] at h1 h2 h3 h4 ⊢
    rw [Station.record_totalTime] at h1
    rw [Station.record_totalCars] at h2
    rw [Station.record_maxQueueTime] at h3
    refine ⟨?_, ?_, ?_, ?_⟩
    · rw [h1, wrap64_add_wrap64]
      simp only [List.map_cons, List.sum_cons]
      congr 1
      omega
    · rw [h2, wrap64_add_wrap64]
      simp only [List.length_cons]
      push_cast
      congr 1
      omega
    · split at h3 <;> omega
    · intro q hq
      rcases List.mem_cons.mp hq with h5 | h5
      · subst h5
        split at h3 <;> omega
      · exact h4 q h5

/-- Counters after a register worker has served `samples` one after another. -/
theorem Register.payment_spec (samples : List (Int × Int)) :
    ∀ rg : Register, inInt64 rg.totalTime → inInt64 rg.totalCars →
      (rg.payment samples).totalTime = wrap64 (rg.totalTime + (samples.map Prod.fst).sum) ∧
      (rg.payment samples).totalCars = wrap64 (rg.totalCars + samples.length) ∧
      rg.maxQueueTime ≤ (rg.payment samples).maxQueueTime ∧
      ∀ p ∈ samples, p.2 ≤ (rg.payment samples).maxQueueTime := by
  induction samples with
  | nil =>
    intro rg ht hc
    simp [Register.payment, wrap64_of_inInt64 ht, wrap64_of_inInt64 hc]
  | cons p l ih =>
    intro rg _ _
    obtain ⟨h1, h2, h3, h4⟩ := ih (rg.record p.1 p.2)
      (by rw [Register.record_time]; exact wrap64_inInt64 _)
      (by rw [Register.record_cars]; exact wrap64_inInt64 _)
    simp only [Register.payment, List.foldl_cons] at h1 h2 h3 h4 ⊢
    rw [Register.record_time] at h1
    rw [Register.record_cars] at h2
    rw [Register.record_max] at h3
    refine ⟨?_, ?_, ?_, ?_⟩
    · rw [h1, wrap64_add_wrap64]
      simp only [List.map_cons, List.sum_cons]
      congr 1
      omega
    · rw [h2, wrap64_add_wrap64]
      simp only [List.length_cons]
      push_cast
      congr 1
      omega
    · split at h3 <;> omega
    · intro q hq
      rcases List.mem_cons.mp hq with h5 | h5
      · subst h5
        split at h3 <;> omega
      · exact h4 q h5

/-- Sum of the first components is at most `length * m` when every first
component is at most `m`. -/
theorem sum_fst_le (m : Int) (samples : List (Int × Int)) (h : ∀ p ∈ samples, p.1 ≤ m) :
    (samples.map Prod.fst).sum ≤ (samples.length : Int) * m := by
  induction samples with
  | nil => simp
  | cons p l ih =>
    have h1 := h p (List.mem_cons_self _ _)
    have h2 := ih (fun q hq => h q (List.mem_cons_of_mem _ hq))
    simp only [List.map_cons, List.sum_cons, List.length_cons]
    push_cast
    rw [add_mul, one_mul]
    omega

/-- The printed average does not exceed `m` when the total is at most
`n * m`: Go division of a total by a positive count. -/
theorem goDiv_le {t n m : Int} (ht : inInt64 t) (hn : 0 < n) (hm : 0 ≤ m) (h : t ≤ n * m) :
    ∃ avg, goDiv t n = some avg ∧ avg ≤ m := by
  unfold inInt64 at ht
  refine ⟨wrap64 (Int.tdiv t n), by simp [goDiv, show n ≠ 0 by omega], ?_⟩
  by_cases h0 : 0 ≤ t
  · have he : Int.tdiv t n = t / n := Int.tdiv_eq_ediv h0 (by omega)
    have h1 : 0 ≤ t / n := Int.ediv_nonneg h0 (by omega)
    have h2 : t / n ≤ t := Int.ediv_le_self n h0
    have h3 : t / n ≤ m := Int.ediv_le_of_le_mul hn (by rw [mul_comm] at h; exact h)
    rw [he, wrap64_of_inInt64 ⟨by omega, by omega⟩]
    exact h3
  · have hneg : Int.tdiv t n = -((-t).tdiv n) := by rw [Int.neg_tdiv]; simp
    have he : (-t).tdiv n = (-t) / n := Int.tdiv_eq_ediv (by omega) (by omega)
    have h1 : 0 ≤ (-t) / n := Int.ediv_nonneg (by omega) (by omega)
    have h2 : (-t) / n ≤ -t := Int.ediv_le_self n (by omega)
    rw [hneg, he, wrap64_of_inInt64 ⟨by omega, by omega⟩]
    omega

/-! ## The readout after a panic -/

/-- In `badConfig` a car routed to `diesel` makes the `diesel` worker panic;
its deferred `wg.Done()` lets `wg.Wait()` return once the other workers have
left, and the statistics are read with no car counted although one
arrived. -/
theorem readout_after_worker_panic :
    ∃ s0 s, start badConfig = some s0 ∧ run s0 panicSchedule = some s ∧ readout s ∧
      s.panicked = true ∧ stationTotal s = 0 ∧ badConfig.Cars.Count = 1 :=
  ⟨_, _, rfl, rfl, by decide, by decide, by decide, by decide⟩

/-! ## The claims -/

/-- C1 (violated by the code): in the complete run `raceSchedule` of
`raceConfig` (two arrivals, two register servers, one server per station) the
station counters add up to the arrival count 2, but the register ends with
`totalCars = 1`, because its two workers increment the counter concurrently. -/
theorem register_served_below_arrivals :
    ∃ s0 s, start raceConfig = some s0 ∧ run s0 raceSchedule = some s ∧ completed s ∧
      raceConfig.Cars.Count = 2 ∧ stationTotal s = 2 ∧ s.registers.totalCars = 1 :=
  ⟨_, _, rfl, rfl, by decide, by decide, by decide, by decide⟩

/-- C2 (violated by the code): for a range with `min == max` the sampling
expression panics for every draw, and so does the program: in
`fixedTimeConfig` (every stage serves in exactly one second) the first token
served at a station or at the register makes its worker panic, and in
`fixedArrivalConfig` (cars exactly one second apart) the generator panics
before the first arrival. -/
theorem sampleDuration_equal_bounds_panics :
    (∀ (m : Int) (r : Nat), sampleDuration m m r = none) ∧
    (∃ s0 s, start fixedTimeConfig = some s0 ∧
      run s0 [.arrive 0 0, .sendRegister, .refuel "gas" 0 0] = some s ∧ s.panicked = true) ∧
    (∃ s0 s, start fixedTimeConfig = some s0 ∧
      run s0 [.arrive 0 0, .sendRegister, .pay 0 0 0] = some s ∧ s.panicked = true) ∧
    (∃ s0 s, start fixedArrivalConfig = some s0 ∧
      run s0 [.arrive 0 0] = some s ∧ s.panicked = true) := by
  refine ⟨?_, ⟨_, _, rfl, rfl, by decide⟩, ⟨_, _, rfl, rfl, by decide⟩,
    ⟨_, _, rfl, rfl, by decide⟩⟩
  intro m r
  apply sampleDuration_eq_none_of_le
  simp [wrap64]

/-- C3 (fails as stated): `gasOnlyConfig` configures the single station type
`gas`, yet the draw 1 makes `chooseRandomStation` return `diesel`, which is
not a configured name; the lookup `stations["diesel"]` finds nothing and the
generator panics on the send. -/
theorem chooseRandomStation_not_configured :
    chooseRandomStation 1 = some "diesel" ∧ "diesel" ∉ gasOnlyConfig.stationNames ∧
    ∃ s0 s, start gasOnlyConfig = some s0 ∧ lookupStation "diesel" s0.stations = none ∧
      step s0 (.arrive 0 1) = some s ∧ s.panicked = true :=
  ⟨by decide, by decide, _, _, rfl, by decide, rfl, by decide⟩

/-- C3 (amended): `chooseRandomStation` always returns one of the four fixed
names `gas`, `diesel`, `lpg`, `electric`, each of them is returned for some
draw, and when the configuration defines these four station types the lookup
`stations[chooseRandomStation()]` finds a station for every draw. -/
theorem chooseRandomStation_fixed_names (c : Config) (s : Sys) (h : start c = some s)
    (hc : ∀ name ∈ stationOptions, name ∈ c.stationNames) :
    (∀ r, ∃ name, chooseRandomStation r = some name ∧ name ∈ stationOptions) ∧
    (∀ name ∈ stationOptions, ∃ r, chooseRandomStation r = some name) ∧
    (∀ r, ∃ name x, chooseRandomStation r = some name ∧
      lookupStation name s.stations = some x ∧ x.1.name = name) := by
  have hchoose : ∀ r, ∃ name, chooseRandomStation r = some name ∧ name ∈ stationOptions := by
    intro r
    have h4 : (r : Int) % 4 = 0 ∨ (r : Int) % 4 = 1 ∨ (r : Int) % 4 = 2 ∨ (r : Int) % 4 = 3 := by
      omega
    simp only [chooseRandomStation, Intn, stationOptions, List.length_cons, List.length_nil]
    rcases h4 with h4 | h4 | h4 | h4 <;> simp [h4]
  refine ⟨hchoose, ?_, ?_⟩
  · intro name hname
    simp only [stationOptions, List.mem_cons, List.mem_singleton, List.not_mem_nil,
      or_false] at hname
    rcases hname with rfl | rfl | rfl | rfl
    · exact ⟨0, by decide⟩
    · exact ⟨1, by decide⟩
    · exact ⟨2, by decide⟩
    · exact ⟨3, by decide⟩
  · intro r
    obtain ⟨name, hn, hmem⟩ := hchoose r
    have hnames := (start_spec h).2.2.2.2.2.2.1
    have hin : name ∈ s.stations.map (fun x => x.1.name) := by
      rw [hnames]
      exact hc name hmem
    obtain ⟨y, hy, hyn⟩ := List.mem_map.mp hin
    have hsome : (lookupStation name s.stations).isSome = true := by
      unfold lookupStation
      rw [List.find?_isSome]
      exact ⟨y, hy, by simp [hyn]⟩
    obtain ⟨x, hx⟩ := Option.isSome_iff_exists.mp hsome
    refine ⟨name, x, hn, hx, ?_⟩
    have := List.find?_some hx
    simpa using this

/-- Witness for C3 (amended): `oneCarConfig` defines the four station types. -/
theorem chooseRandomStation_fixed_names_witness :
    ∃ s, start oneCarConfig = some s ∧
      (∀ name ∈ stationOptions, name ∈ oneCarConfig.stationNames) ∧
      ∀ r, ∃ name x, chooseRandomStation r = some name ∧
        lookupStation name s.stations = some x ∧ x.1.name = name :=
  ⟨_, rfl, by decide,
    (chooseRandomStation_fixed_names oneCarConfig _ rfl (by decide)).2.2⟩

/-- C4 (violated by the code): `threeGasConfig` asks for 3 + 1 + 1 + 1 station
servers and 1 register server, 7 in all, but start-up launches and tracks 5
workers: one per station type, whatever its `count`, and one for the
register. -/
theorem workers_started_below_configured :
    ∃ s, start threeGasConfig = some s ∧ configuredServers threeGasConfig = 7 ∧ s.wg = 5 ∧
      s.stations.length = 4 ∧ s.payers.length = 1 :=
  ⟨_, rfl, by decide, by decide, by decide, by decide⟩

/-- C5 (fails as stated): `badConfig` has no register server, no `diesel`
server and a `diesel` range with `min > max`; start-up succeeds all the same,
four workers are started and the simulation runs to completion. -/
theorem invalid_config_runs :
    badConfig.invalid ∧
    ∃ s0 s, start badConfig = some s0 ∧ s0.wg = 4 ∧ run s0 badSchedule = some s ∧
      completed s ∧ stationTotal s = 1 :=
  ⟨Or.inr (Or.inr (Or.inl (by decide))), _, _, rfl, by decide, rfl, by decide, by decide⟩

/-- C5 (amended): start-up fails before any worker or the generator is
started exactly when the arrival count is negative; every other parsed
configuration passes start-up, the generator standing at the head of its
loop and no panic raised. -/
theorem start_fails_iff_negative_arrival_count (c : Config) :
    (start c = none ↔ c.Cars.Count < 0) ∧
    ∀ s, start c = some s → s.gen = GenPc.loop 0 ∧ s.panicked = false := by
  refine ⟨start_eq_none_iff c, ?_⟩
  intro s h
  obtain ⟨_, _, hgen, hp, _⟩ := start_spec h
  exact ⟨hgen, hp⟩

/-- C6 (fails as stated): a station whose serve time is `hugeNegative` serves
two tokens, each measured at 100ns (at least the duration slept).  The sum of
the two durations wraps around in `totalTime`: the stage ends with
`totalCars = 2`, prints an average of about 2^62 ns, and its `maxQueueTime` is
100ns. -/
theorem max_below_average_after_wraparound :
    sampleDuration hugeNegative (hugeNegative + 1) 0 = some hugeNegative ∧
    (∀ p ∈ [(hugeNegative, (100 : Int)), (hugeNegative, 100)], p.1 ≤ p.2) ∧
    0 < ((newStation "gas" ⟨1, hugeNegative, hugeNegative + 1⟩ ⟨2, 0, false⟩).carRefueling
      [(hugeNegative, 100), (hugeNegative, 100)]).totalCars ∧
    ((newStation "gas" ⟨1, hugeNegative, hugeNegative + 1⟩ ⟨2, 0, false⟩).carRefueling
      [(hugeNegative, 100), (hugeNegative, 100)]).reportAvg = some 4611686018427387903 ∧
    ((newStation "gas" ⟨1, hugeNegative, hugeNegative + 1⟩ ⟨2, 0, false⟩).carRefueling
      [(hugeNegative, 100), (hugeNegative, 100)]).maxQueueTime = 100 ∧
    ((newStation "gas" ⟨1, hugeNegative, hugeNegative + 1⟩ ⟨2, 0, false⟩).carRefueling
      [(hugeNegative, 100), (hugeNegative, 100)]).maxQueueTime < 4611686018427387903 :=
  ⟨by decide, by decide, by decide, by decide, by decide, by decide⟩

/-- C6 (amended): when a stage has served its tokens one after another, each
elapsed time being at least the sampled duration, fewer than 2^63 tokens in
all, and the exact sum of the sampled durations is at least -2^63 (always so
without negative durations), then a stage with `totalCars > 0` prints an
average that is at most its `maxQueueTime`.  Stations and register alike. -/
theorem max_ge_average (name : String) (sc : StationConfig) (rc : RegisterConfig) (q : Chan)
    (samples : List (Int × Int)) (hel : ∀ p ∈ samples, p.1 ≤ p.2)
    (hlen : (samples.length : Int) < 9223372036854775808)
    (hsum : -9223372036854775808 ≤ (samples.map Prod.fst).sum) :
    (0 < ((newStation name sc q).carRefueling samples).totalCars →
      ∃ avg, ((newStation name sc q).carRefueling samples).reportAvg = some avg ∧
        avg ≤ ((newStation name sc q).carRefueling samples).maxQueueTime) ∧
    (0 < ((newRegister rc q).payment samples).totalCars →
      ∃ avg, ((newRegister rc q).payment samples).reportAvg = some avg ∧
        avg ≤ ((newRegister rc q).payment samples).maxQueueTime) := by
  have hn0 : (0 : Int) ≤ samples.length := Int.natCast_nonneg _
  have hwn : wrap64 ((0 : Int) + samples.length) = samples.length := by
    rw [zero_add]
    exact wrap64_of_inInt64 ⟨by omega, hlen⟩
  have hwt : wrap64 ((0 : Int) + (samples.map Prod.fst).sum) ≤ (samples.map Prod.fst).sum := by
    rw [zero_add]
    exact wrap64_le_of_ge hsum
  constructor
  · intro hpos
    have hz : inInt64 0 := by decide
    obtain ⟨h1, h2, h3, h4⟩ := Station.carRefueling_spec samples (newStation name sc q) hz hz
    have e1 : (newStation name sc q).totalTime = 0 := rfl
    have e2 : (newStation name sc q).totalCars = 0 := rfl
    have e3 : (newStation name sc q).maxQueueTime = 0 := rfl
    rw [e1] at h1
    rw [e2, hwn] at h2
    rw [e3] at h3
    have hle := sum_fst_le _ samples (fun p hp => le_trans (hel p hp) (h4 p hp))
    have hin : inInt64 ((newStation name sc q).carRefueling samples).totalTime := by
      rw [h1]; exact wrap64_inInt64 _
    unfold Station.reportAvg
    rw [if_pos hpos]
    rw [h2] at hpos ⊢
    exact goDiv_le hin hpos h3 (by rw [h1]; exact le_trans hwt hle)
  · intro hpos
    have hz : inInt64 0 := by decide
    obtain ⟨h1, h2, h3, h4⟩ := Register.payment_spec samples (newRegister rc q) hz hz
    have e1 : (newRegister rc q).totalTime = 0 := rfl
    have e2 : (newRegister rc q).totalCars = 0 := rfl
    have e3 : (newRegister rc q).maxQueueTime = 0 := rfl
    rw [e1] at h1
    rw [e2, hwn] at h2
    rw [e3] at h3
    have hle := sum_fst_le _ samples (fun p hp => le_trans (hel p hp) (h4 p hp))
    have hin : inInt64 ((newRegister rc q).payment samples).totalTime := by
      rw [h1]; exact wrap64_inInt64 _
    unfold Register.reportAvg
    rw [if_pos hpos]
    rw [h2] at hpos ⊢
    exact goDiv_le hin hpos h3 (by rw [h1]; exact le_trans hwt hle)

/-- Witness for C6 (amended): two tokens, sampled 1ns and 3ns, measured 5ns
and 4ns. -/
theorem max_ge_average_witness :
    (∀ p ∈ [((1 : Int), (5 : Int)), (3, 4)], p.1 ≤ p.2) ∧
    ∃ avg, ((newStation "gas" ⟨1, 1, 3⟩ ⟨2, 0, false⟩).carRefueling
        [(1, 5), (3, 4)]).reportAvg = some avg ∧
      avg ≤ ((newStation "gas" ⟨1, 1, 3⟩ ⟨2, 0, false⟩).carRefueling
        [(1, 5), (3, 4)]).maxQueueTime :=
  ⟨by decide,
    (max_ge_average "gas" ⟨1, 1, 3⟩ ⟨1, 1, 3⟩ ⟨2, 0, false⟩ [(1, 5), (3, 4)] (by decide)
      (by decide) (by decide)).1 (by decide)⟩

/-- C7: a station or register whose `totalCars` is 0 prints the average 0, and
the readout performs no division (it does not panic). -/
theorem average_zero_when_nothing_served (station : Station) (register : Register)
    (hs : station.totalCars = 0) (hr : register.totalCars = 0) :
    station.reportAvg = some 0 ∧ register.reportAvg = some 0 := by
  unfold Station.reportAvg Register.reportAvg
  rw [hs, hr]
  exact ⟨rfl, rfl⟩

/-- Witness for C7: the stages as created by `main`, before any token. -/
theorem average_zero_when_nothing_served_witness :
    (newStation "gas" ⟨1, 1, 3⟩ ⟨0, 0, false⟩).reportAvg = some 0 ∧
    (newRegister ⟨1, 1, 3⟩ ⟨0, 0, false⟩).reportAvg = some 0 :=
  average_zero_when_nothing_served (newStation "gas" ⟨1, 1, 3⟩ ⟨0, 0, false⟩)
    (newRegister ⟨1, 1, 3⟩ ⟨0, 0, false⟩) rfl rfl

/-- C8 (fails as stated): two complete runs of `oneCarConfig` that differ only
in the routing draw end with different served counts at `gas` (1 and 0) and
at `diesel` (0 and 1); both reach the readout. -/
theorem station_counts_depend_on_draw :
    ∃ s0 sA sB, start oneCarConfig = some s0 ∧
      run s0 (oneCarSchedule 0 "gas") = some sA ∧ completed sA ∧
      run s0 (oneCarSchedule 1 "diesel") = some sB ∧ completed sB ∧
      stationCars sA "gas" = some 1 ∧ stationCars sB "gas" = some 0 ∧
      stationCars sA "diesel" = some 0 ∧ stationCars sB "diesel" = some 1 ∧
      readout sA ∧ readout sB :=
  ⟨_, _, _, rfl, rfl, by decide, rfl, by decide, by decide, by decide, by decide, by decide,
    by decide, by decide⟩

/-- C8 (amended): for every configuration and any two runs that reach the
readout (`wg.Wait()` returns), whatever their draws, clock readings and
scheduling, panics included: if the routing draws of the two runs choose the
same stations in the same order, every station has the same `totalCars` in
both runs, and when at most one register server is configured the register
has the same `totalCars` in both runs. -/
theorem served_counts_fixed_by_routing (c : Config) (hN : c.Cars.Count < 9223372036854775808)
    (s0 s1 s2 : Sys) (as1 as2 : List Action) (h0 : start c = some s0)
    (h1 : run s0 as1 = some s1) (hr1 : readout s1)
    (h2 : run s0 as2 = some s2) (hr2 : readout s2) :
    (routing as1 = routing as2 → ∀ name, stationCars s1 name = stationCars s2 name) ∧
    (c.Registers.Count ≤ 1 → s1.registers.totalCars = s2.registers.totalCars) := by
  have i1 : InvD c s0 (routing as1) s1 := by
    simpa using run_invD hN as1 (start_invD h0) h1
  have i2 : InvD c s0 (routing as2) s2 := by
    simpa using run_invD hN as2 (start_invD h0) h2
  constructor
  · intro hrt name
    have hfix := lookupStation_fixedPart (i1.fixed.trans i2.fixed.symm) name
    unfold stationCars
    cases hx1 : lookupStation name s1.stations with
    | none =>
      cases hx2 : lookupStation name s2.stations with
      | none => rfl
      | some x2 => rw [hx1, hx2] at hfix; simp at hfix
    | some x1 =>
      cases hx2 : lookupStation name s2.stations with
      | none => rw [hx1, hx2] at hfix; simp at hfix
      | some x2 =>
        rw [hx1, hx2] at hfix
        simp only [Option.map_some', Option.some.injEq] at hfix ⊢
        have e1 := congrArg (fun t => t.2.1) hfix
        have e2 := congrArg (fun t => t.2.2) hfix
        simp only [fixedPart] at e1 e2
        have hval : x1.1.validRange ↔ x2.1.validRange := by
          unfold Station.validRange
          rw [e1, e2]
        obtain ⟨a1, b1⟩ := stationCars_readout i1 hr1 hx1
        obtain ⟨a2, b2⟩ := stationCars_readout i2 hr2 hx2
        by_cases hv : x1.1.validRange
        · rw [a1 hv, a2 (hval.mp hv), hrt]
        · rw [b1 hv, b2 (fun x => hv (hval.mpr x))]
  · intro hc
    have g1 : RegInv c s1 := run_regInv hN as1 (start_regInv hc h0) h1
    have g2 : RegInv c s2 := run_regInv hN as2 (start_regInv hc h0) h2
    have hval : s1.registers.validRange ↔ s2.registers.validRange := by
      unfold Register.validRange
      rw [g1.fixed.1, g1.fixed.2, g2.fixed.1, g2.fixed.2]
    have hlen : s1.payers.length = s2.payers.length := by
      rw [run_payers_length as1 h1, run_payers_length as2 h2]
    obtain ⟨a1, b1, c1⟩ := registerCars_readout i1 g1 hr1
    obtain ⟨a2, b2, c2⟩ := registerCars_readout i2 g2 hr2
    by_cases hv : s1.registers.validRange
    · by_cases hp : s1.payers = []
      · have hp2 : s2.payers = [] := by
          apply List.eq_nil_of_length_eq_zero
          rw [← hlen, hp]
          rfl
        rw [c1 hp, c2 hp2]
      · have hp2 : s2.payers ≠ [] := by
          intro hx
          apply hp
          apply List.eq_nil_of_length_eq_zero
          rw [hlen, hx]
          rfl
        rw [a1 hv hp, a2 (hval.mp hv) hp2]
    · rw [b1 hv, b2 (fun x => hv (hval.mpr x))]

/-- Witness for C8 (amended): two runs of `oneCarConfig` that both route the
car to `gas` and differ in the other draws, the clock readings and the
scheduling. -/
theorem served_counts_fixed_by_routing_witness :
    ∃ s0 sA sB, start oneCarConfig = some s0 ∧
      run s0 (oneCarSchedule 0 "gas") = some sA ∧ readout sA ∧
      run s0 oneCarOtherSchedule = some sB ∧ readout sB ∧
      routing (oneCarSchedule 0 "gas") = routing oneCarOtherSchedule ∧
      oneCarConfig.Registers.Count ≤ 1 ∧
      sA.registers.maxQueueTime ≠ sB.registers.maxQueueTime ∧
      (∀ name, stationCars sA name = stationCars sB name) ∧
      sA.registers.totalCars = sB.registers.totalCars :=
  ⟨_, _, _, rfl, rfl, by decide, rfl, by decide, by decide, by decide, by decide,
    (served_counts_fixed_by_routing oneCarConfig (by decide) _ _ _ (oneCarSchedule 0 "gas")
      oneCarOtherSchedule rfl rfl (by decide) rfl (by decide)).1 (by decide),
    (served_counts_fixed_by_routing oneCarConfig (by decide) _ _ _ (oneCarSchedule 0 "gas")
      oneCarOtherSchedule rfl rfl (by decide) rfl (by decide)).2 (by decide)⟩

/-- C9 (violated by the code): in the complete run `overlapSchedule` of
`raceConfig` the two register workers serve one token each (both sampled 1ns,
measured 9ns and 5ns) and their unsynchronised updates overlap.  The register
ends with `totalCars = 1`, `totalTime = 1`, `maxQueueTime = 5`, whereas the two
updates applied one after the other, in either order, give 2, 2 and 9; no
sequence of two per-token updates ends with `totalCars = 1`. -/
theorem register_updates_lost :
    ∃ s0 s, start raceConfig = some s0 ∧ run s0 overlapSchedule = some s ∧ completed s ∧
      s.payers.length = 2 ∧
      (s.registers.totalCars, s.registers.totalTime, s.registers.maxQueueTime) = (1, 1, 5) ∧
      ((s0.registers.payment [(1, 9), (1, 5)]).totalCars,
        (s0.registers.payment [(1, 9), (1, 5)]).totalTime,
        (s0.registers.payment [(1, 9), (1, 5)]).maxQueueTime) = (2, 2, 9) ∧
      ((s0.registers.payment [(1, 5), (1, 9)]).totalCars,
        (s0.registers.payment [(1, 5), (1, 9)]).totalTime,
        (s0.registers.payment [(1, 5), (1, 9)]).maxQueueTime) = (2, 2, 9) ∧
      ∀ samples : List (Int × Int), samples.length = 2 →
        (s0.registers.payment samples).totalCars = 2 := by
  refine ⟨_, _, rfl, rfl, by decide, by decide, by decide, by decide, by decide, ?_⟩
  intro samples hlen
  have hz : inInt64 0 := by decide
  have h := (Register.payment_spec samples (newRegister raceConfig.Registers ⟨2, 0, false⟩)
    hz hz).2.1
  rw [hlen] at h
  exact h

/-- C10 (fails as stated): with the range from 1s to 2s no draw yields the
upper bound 2s. -/
theorem sampleDuration_never_max :
    (1000000000 : Int) < 2000000000 ∧
    ∀ r : Nat, sampleDuration 1000000000 2000000000 r ≠ some 2000000000 := by
  refine ⟨by decide, ?_⟩
  intro r h
  have h1 := (sampleDuration_eq_some_iff (by decide) (by decide) (by decide) (by decide) r _).mp h
  have h2 := Int.emod_lt_of_pos (r : Int) (show (0 : Int) < 2000000000 - 1000000000 by decide)
  omega

/-- C10 (amended): for a range with `min < max` whose width `max - min` fits
in 64 bits, the durations a worker can sample are exactly those with
`min <= d < max`: the upper bound is excluded. -/
theorem sampleDuration_range (min max : Int) (hmin : inInt64 min) (hmax : inInt64 max)
    (hlt : min < max) (hw : max - min < 9223372036854775808) (d : Int) :
    (∃ r, sampleDuration min max r = some d) ↔ (min ≤ d ∧ d < max) := by
  have hpos : 0 < max - min := by omega
  constructor
  · rintro ⟨r, hr⟩
    have h1 := (sampleDuration_eq_some_iff hmin hmax hlt hw r d).mp hr
    have h2 := Int.emod_nonneg (r : Int) (show max - min ≠ 0 by omega)
    have h3 := Int.emod_lt_of_pos (r : Int) hpos
    omega
  · rintro ⟨h1, h2⟩
    refine ⟨(d - min).toNat, ?_⟩
    rw [sampleDuration_eq_some_iff hmin hmax hlt hw]
    have h3 : (((d - min).toNat : Nat) : Int) = d - min := Int.toNat_of_nonneg (by omega)
    rw [h3, Int.emod_eq_of_lt (by omega) (by omega)]
    omega

/-- Witness for C10 (amended): the range from 1s to 2s yields 1.5s. -/
theorem sampleDuration_range_witness :
    inInt64 1000000000 ∧ inInt64 2000000000 ∧
    ((∃ r, sampleDuration 1000000000 2000000000 r = some 1500000000) ↔
      ((1000000000 : Int) ≤ 1500000000 ∧ (1500000000 : Int) < 2000000000)) :=
  ⟨by decide, by decide,
    sampleDuration_range 1000000000 2000000000 (by decide) (by decide) (by decide) (by decide)
      1500000000⟩

end GasStation
